import Mathlib

/-!
Shallow embedding of `scripts/optimize_images.py`, a batch image optimizer.

The script walks a source directory, re-encodes JPEG/PNG/WEBP/GIF images via
the external imaging library (PIL), copies unknown formats byte-for-byte, and
prints a per-file and aggregate size report.

Modelling choices:
* The filesystem is a flat finite map from paths (lists of components) to file
  contents, plus a set of directory paths.  `Path.mkdir(parents=True,
  exist_ok=True)` fails (uncaught in the script) when a regular file blocks the
  directory path; `open`/`save` fails when the target is a directory.
* A file's content either fails to decode (`Image.open` raises, carrying the
  decoder message) or decodes to an in-memory image (format string, mode
  string, pixel grid, optional EXIF bytes) with an on-disk byte size.
* The external encoder (PIL `Image.save`) is an abstract `Codec`: a function
  from the in-memory image, the format name and the save options to either an
  error (an uncaught exception in the script) or the decoded form of the
  written file together with its byte size.  Theorems are proved for every
  codec; witnesses instantiate a concrete one.
* `python -c` exceptions that the script does not catch are modelled with
  `Except String`; a `.error` escaping `main` is a crashed process (non-zero
  exit), `sys.exit(2)` and normal completion are the other outcomes.
* The traversal `src.rglob("*")` is enumerated from the initial filesystem
  (the Python generator is lazy; the snapshot semantics agrees with it on all
  inputs the claims quantify over, and the dry-run/destination interference
  cases are treated explicitly in the corresponding theorems).
-/

/-- A filesystem path, as a list of components. -/
abbrev FPath := List String

/-- One pixel, as stored by the imaging library (red, green, blue, alpha). -/
structure Pixel where
  r : Nat
  g : Nat
  b : Nat
  a : Nat
deriving DecidableEq

/-- The decoded, in-memory form of an image: `img.format`, `img.mode`, the
size, the pixel grid (row major) and the `"exif"` entry of `img.info`. -/
structure Img where
  fmt : String
  mode : String
  w : Nat
  h : Nat
  px : List Pixel
  exif : Option (List Nat)
deriving DecidableEq

/-- The content of one file on disk: either bytes that the decoder rejects
(`Image.open` raises with the given message) or bytes that decode to `img`;
both carry the on-disk byte size reported by `stat()`. -/
inductive FileContent where
  | invalid (msg : String) (size : Nat)
  | valid (img : Img) (size : Nat)
deriving DecidableEq

/-- The `stat().st_size` of a file content. -/
def FileContent.size : FileContent → Nat
  | .invalid _ s => s
  | .valid _ s => s

/-- The filesystem: a finite map from paths to file contents, plus the set of
existing directories (the root `[]` always exists implicitly). -/
structure Fsys where
  files : List (FPath × FileContent)
  dirs : List FPath
deriving DecidableEq

/-- Recursive lookup in the file map. -/
def lookupF : List (FPath × FileContent) → FPath → Option FileContent
  | [], _ => none
  | e :: rest, p => if e.1 = p then some e.2 else lookupF rest p

/-- Look up the regular file at path `p`. -/
def findFile (fs : Fsys) (p : FPath) : Option FileContent :=
  lookupF fs.files p

/-- `p.stat().st_size` for a path known to the caller to be a file; `0` when
there is no file there (the script only calls `stat` on existing files). -/
def statSize (fs : Fsys) (p : FPath) : Nat :=
  match findFile fs p with
  | some c => c.size
  | none => 0

/-- `Path.exists()`: true for a regular file or a directory. -/
def existsPath (fs : Fsys) (p : FPath) : Bool :=
  (findFile fs p).isSome || fs.dirs.contains p

/-- All nonempty prefixes of a path, shortest first. -/
def pathPrefixes : FPath → List FPath
  | [] => []
  | c :: rest => [c] :: (pathPrefixes rest).map (fun q => c :: q)

/-- `p.mkdir(parents=True, exist_ok=True)`: creates every missing ancestor
directory; raises (uncaught in the script) when a regular file occupies any
ancestor of `p` or `p` itself. -/
def mkdirp (fs : Fsys) (p : FPath) : Except String Fsys :=
  if (pathPrefixes p).any (fun q => (findFile fs q).isSome) then
    Except.error "mkdir: file exists"
  else
    Except.ok { files := fs.files,
                dirs := (pathPrefixes p).foldl
                  (fun ds q => if ds.contains q then ds else q :: ds) fs.dirs }

/-- Update-or-insert the file map at `p`. -/
def setFile : List (FPath × FileContent) → FPath → FileContent → List (FPath × FileContent)
  | [], p, c => [(p, c)]
  | e :: rest, p, c => if e.1 = p then (p, c) :: rest else e :: setFile rest p c

/-- Write bytes to `p` (the `save`/`copy` target); raises when `p` is an
existing directory.  The parent directory exists at every call site because
`optimize_image` begins with `dst.parent.mkdir(parents=True, exist_ok=True)`. -/
def writeFile (fs : Fsys) (p : FPath) (c : FileContent) : Except String Fsys :=
  if fs.dirs.contains p then Except.error "is a directory"
  else Except.ok { files := setFile fs.files p c, dirs := fs.dirs }

/-- Remove entries with key `p` from the file map. -/
def removeF : List (FPath × FileContent) → FPath → List (FPath × FileContent)
  | [], _ => []
  | e :: rest, p => if e.1 = p then removeF rest p else e :: removeF rest p

/-- Remove the regular file at `p` (`Path.unlink`). -/
def unlinkFile (fs : Fsys) (p : FPath) : Fsys :=
  { files := removeF fs.files p, dirs := fs.dirs }

/-- `shutil.copy2(src, dst)`: byte-for-byte copy, preserving content and
therefore size; raises if the destination is a directory. -/
def copy2 (fs : Fsys) (src dst : FPath) : Except String Fsys :=
  match findFile fs src with
  | some c => writeFile fs dst c
  | none => Except.error "copy failed"

/-- The keyword arguments the script passes to `Image.save`. -/
structure SaveOpts where
  quality : Option Nat
  optimize : Bool
  progressive : Bool
  exif : Option (List Nat)
  compress_level : Option Nat
  method : Option Nat
  save_all : Bool
deriving DecidableEq

/-- Save options with nothing set (the script's empty `save_kwargs`). -/
def SaveOpts.empty : SaveOpts :=
  { quality := none, optimize := false, progressive := false, exif := none,
    compress_level := none, method := none, save_all := false }

/-- The external imaging library's encoder: from the in-memory image, the
explicit format name and the save options, produce the decoded form of the
bytes it writes together with their size, or raise (an uncaught exception). -/
structure Codec where
  encode : Img → String → SaveOpts → Except String (Img × Nat)

/-- The per-file result dictionary built by `optimize_image`. -/
structure FileResult where
  src : FPath
  dst : FPath
  status : String
  orig_size : Nat
  new_size : Nat
deriving DecidableEq

/-- The character list from the last dot onward (inclusive), when the string
contains a dot at all. -/
def lastSuffix : List Char → Option (List Char)
  | [] => none
  | c :: rest =>
    match lastSuffix rest with
    | some s => some s
    | none => if c = '.' then some ('.' :: rest) else none

/-- `pathlib.PurePath.suffix` of a file name: the part from the last dot,
empty when the dot is the first character, the last character, or absent. -/
def pySuffix (s : String) : String :=
  match lastSuffix s.data with
  | some suf => if suf.length < s.data.length ∧ 2 ≤ suf.length then String.mk suf else ""
  | none => ""

/-- `Path.suffix` of a component-list path: the suffix of its last component. -/
def pathSuffix (p : FPath) : String :=
  pySuffix (p.getLastD "")

/-- ASCII lowering of one character (`str.lower()` restricted to the ASCII
range, which covers the five extensions being compared against). -/
def lowerChar (c : Char) : Char :=
  if 'A' ≤ c ∧ c ≤ 'Z' then Char.ofNat (c.toNat + 32) else c

/-- `str.lower()` over the underlying characters. -/
def lowerStr (s : String) : String := String.mk (s.data.map lowerChar)

/-- The extension allowlist of `iter_images`. -/
def imageExts : List String := [".jpg", ".jpeg", ".png", ".webp", ".gif"]

/-- `Image.open(src)`: the decoder; raises on missing files and undecodable
bytes (both caught by `optimize_image`'s `try`). -/
def openImage (fs : Fsys) (p : FPath) : Except String Img :=
  match findFile fs p with
  | some (FileContent.valid img _) => Except.ok img
  | some (FileContent.invalid msg _) => Except.error msg
  | none => Except.error "No such file or directory"

/-- PIL's fixed-point `MULDIV255(x, y)` macro: `t = x*y + 128;
((t >> 8) + t) >> 8`, the rounded product `x*y/255`. -/
def muldiv255 (x y : Nat) : Nat :=
  ((x * y + 128) / 256 + (x * y + 128)) / 256

/-- One channel of `bg.paste(img, mask=alpha)`: the library blends the source
channel `s` over the background channel `bgc` with weight `a/255`. -/
def blendChan (s bgc a : Nat) : Nat :=
  muldiv255 bgc (255 - a) + muldiv255 s a

/-- The script's alpha flattening for JPEG: `bg = Image.new("RGB", size,
(255,255,255)); bg.paste(img, mask=img.split()[-1]); img = bg`.  The result is
the fresh background image: mode RGB, fully opaque pixels blended onto white,
and empty `info` (so no EXIF). -/
def pasteWhite (img : Img) : Img :=
  { fmt := img.fmt, mode := "RGB", w := img.w, h := img.h,
    px := img.px.map (fun p =>
      { r := blendChan p.r 255 p.a, g := blendChan p.g 255 p.a,
        b := blendChan p.b 255 p.a, a := 255 }),
    exif := none }

/-- `img.convert("RGB")`: mode becomes RGB, the alpha channel is dropped
(pixels become opaque), and `info` (hence EXIF) is preserved. -/
def convertRGB (img : Img) : Img :=
  { fmt := img.fmt, mode := "RGB", w := img.w, h := img.h,
    px := img.px.map (fun p => { r := p.r, g := p.g, b := p.b, a := 255 }),
    exif := img.exif }

/-- Python truthiness of the `exif` bytes: `if exif:` drops both `None` and
empty bytes. -/
def nonEmptyBytes : Option (List Nat) → Option (List Nat)
  | some bs => if bs.isEmpty then none else some bs
  | none => none

/-- The JPEG branch of `optimize_image` before the `save` call: flatten alpha
onto white (or convert to RGB), read `img.info.get("exif")` from the possibly
replaced image, and assemble the save keyword arguments. -/
def jpegPrepare (img : Img) (quality : Nat) : Img × SaveOpts :=
  let img2 := if img.mode = "RGBA" ∨ img.mode = "LA" then pasteWhite img else convertRGB img
  let exif := nonEmptyBytes img2.exif
  (img2, { quality := some quality, optimize := true, progressive := true,
           exif := exif, compress_level := none, method := none, save_all := false })

/-- Save options of the PNG branch: `optimize=True, compress_level=9`. -/
def pngOpts : SaveOpts :=
  { quality := none, optimize := true, progressive := false, exif := none,
    compress_level := some 9, method := none, save_all := false }

/-- Save options of the WEBP branch: `quality=quality, method=6`. -/
def webpOpts (quality : Nat) : SaveOpts :=
  { quality := some quality, optimize := false, progressive := false, exif := none,
    compress_level := none, method := some 6, save_all := false }

/-- Save options of the GIF branch: `save_all=True`. -/
def gifOpts : SaveOpts :=
  { quality := none, optimize := false, progressive := false, exif := none,
    compress_level := none, method := none, save_all := true }

/-- The format dispatch of `optimize_image`'s re-encode arm: which image and
options are handed to `Image.save` for each of the four known formats. -/
def encodeDispatch (codec : Codec) (img : Img) (quality : Nat) :
    Except String (Img × Nat) :=
  if img.fmt = "JPEG" then
    codec.encode (jpegPrepare img quality).1 "JPEG" (jpegPrepare img quality).2
  else if img.fmt = "PNG" then
    codec.encode img "PNG" pngOpts
  else if img.fmt = "WEBP" then
    codec.encode img "WEBP" (webpOpts quality)
  else
    codec.encode img "GIF" gifOpts

/-- `p.parent` for the component-list representation. -/
def parentPath (p : FPath) : FPath := p.dropLast

/-- The script's `optimize_image(src, dst, quality)`.  Only `Image.open` sits
inside the `try`; every other failure (mkdir, copy, encode, write) propagates
as an uncaught exception (`Except.error`). -/
def optimize_image (codec : Codec) (fs : Fsys) (src dst : FPath) (quality : Nat) :
    Except String (Fsys × FileResult) :=
  match mkdirp fs (parentPath dst) with
  | Except.error e => Except.error e
  | Except.ok fs1 =>
    match openImage fs1 src with
    | Except.error e =>
      Except.ok (fs1, { src := src, dst := dst, status := "error: " ++ e,
                        orig_size := 0, new_size := 0 })
    | Except.ok img =>
      let origSize := statSize fs1 src
      if (["JPEG", "PNG", "WEBP", "GIF"].contains img.fmt) = false then
        match copy2 fs1 src dst with
        | Except.error e => Except.error e
        | Except.ok fs2 =>
          Except.ok (fs2, { src := src, dst := dst, status := "copied",
                            orig_size := origSize, new_size := statSize fs2 dst })
      else
        match encodeDispatch codec img quality with
        | Except.error e => Except.error e
        | Except.ok pr =>
          match writeFile fs1 dst (FileContent.valid pr.1 pr.2) with
          | Except.error e => Except.error e
          | Except.ok fs2 =>
            Except.ok (fs2, { src := src, dst := dst, status := "optimized",
                              orig_size := origSize, new_size := statSize fs2 dst })

/-- The per-entry filter of `iter_images`: a file map entry is kept when its
path lies strictly below `src` and its lower-cased extension is allowed; the
yielded value is the path relative to `src`. -/
def iterF (src : FPath) (e : FPath × FileContent) : Option FPath :=
  if List.isPrefixOf src e.1 ∧ src.length < e.1.length ∧
      imageExts.contains (lowerStr (pathSuffix e.1)) = true
  then some (e.1.drop src.length) else none

/-- `iter_images(src_dir)`: every regular file strictly below `src` whose
(lower-cased) extension is in the allowlist, returned as a path relative to
`src`, in file-map order. -/
def iter_images (fs : Fsys) (src : FPath) : List FPath :=
  fs.files.filterMap (iterF src)

/-- The parsed command line (`argparse` result). -/
structure Args where
  src : FPath
  dest : Option FPath
  inplace : Bool
  quality : Nat
  dryRun : Bool
deriving DecidableEq

/-- `dest_root = Path(args.dest) if args.dest else (src if args.inplace else
Path("images_optimized"))`. -/
def destRootOf (args : Args) : FPath :=
  match args.dest with
  | some d => d
  | none => if args.inplace then args.src else ["images_optimized"]

/-- `dst_path.with_suffix(dst_path.suffix + ".tmp")`: since the new suffix is
the old one extended by `".tmp"`, the effect is appending `".tmp"` to the last
component. -/
def tmpPath (p : FPath) : FPath :=
  p.dropLast ++ [p.getLastD "" ++ ".tmp"]

/-- One iteration of `main`'s loop for the relative path `rel`: compute the
destination, optimize (through a temporary path that is deleted afterwards
when `--dry-run` is set), and return the updated filesystem and the result. -/
def processOne (codec : Codec) (args : Args) (destRoot : FPath) (fs : Fsys)
    (rel : FPath) : Except String (Fsys × FileResult) :=
  let imgPath := args.src ++ rel
  let dstPath := if args.inplace then imgPath else destRoot ++ rel
  if args.dryRun then
    match optimize_image codec fs imgPath (tmpPath dstPath) args.quality with
    | Except.error e => Except.error e
    | Except.ok fsr =>
      let fs2 := if existsPath fsr.1 (tmpPath dstPath) then unlinkFile fsr.1 (tmpPath dstPath)
                 else fsr.1
      Except.ok (fs2, fsr.2)
  else
    optimize_image codec fs imgPath dstPath args.quality

/-- `main`'s traversal loop over the relative paths yielded by `iter_images`,
accumulating the results in traversal order. -/
def processAll (codec : Codec) (args : Args) (destRoot : FPath) :
    Fsys → List FPath → Except String (Fsys × List FileResult)
  | fs, [] => Except.ok (fs, [])
  | fs, rel :: rest =>
    match processOne codec args destRoot fs rel with
    | Except.error e => Except.error e
    | Except.ok fsr =>
      match processAll codec args destRoot fsr.1 rest with
      | Except.error e => Except.error e
      | Except.ok fsrs => Except.ok (fsrs.1, fsr.2 :: fsrs.2)

/-- `str.startswith`, on the underlying character lists. -/
def pyStartswith (s pre : String) : Bool :=
  List.isPrefixOf pre.data s.data

/-- `str(Path(...))` for the report lines: components joined by `/`. -/
def pathStr (p : FPath) : String :=
  String.intercalate "/" p

/-- The running totals: `total_orig += info.get("orig_size", 0) or 0`
(the `or 0` is the identity on naturals, since only `0` is falsy). -/
def totalOrig (rs : List FileResult) : Nat :=
  (rs.map (fun r => r.orig_size)).sum

/-- The running totals: `total_new += info.get("new_size", 0) or 0`. -/
def totalNew (rs : List FileResult) : Nat :=
  (rs.map (fun r => r.new_size)).sum

/-- One per-file report line: `ERR: <src> -> <status>` for error statuses,
`<src> -> <dst>: <origKB>KB -> <newKB>KB` when both sizes are truthy, and
`<src> -> <dst>: <status>` otherwise. -/
def fileLine (r : FileResult) : String :=
  if pyStartswith r.status "error" then
    "ERR: " ++ pathStr r.src ++ " -> " ++ r.status
  else if r.orig_size ≠ 0 ∧ r.new_size ≠ 0 then
    pathStr r.src ++ " -> " ++ pathStr r.dst ++ ": " ++
      toString (r.orig_size / 1024) ++ "KB -> " ++ toString (r.new_size / 1024) ++ "KB"
  else
    pathStr r.src ++ " -> " ++ pathStr r.dst ++ ": " ++ r.status

/-- Round-half-to-even of the exact fraction `a / b` (with `b > 0`) to an
integer — the rounding CPython's float formatting applies, here on the exact
value of the script's percentage expression. -/
def rhe (a b : Int) : Int :=
  let f := Int.fdiv a b
  let r := a - f * b
  if 2 * r < b then f
  else if b < 2 * r then f + 1
  else if f % 2 = 0 then f else f + 1

/-- Digits of a nonnegative tenth-count `m`, printed as `m/10 "." m%10`. -/
def fmt1n (m : Nat) : String :=
  toString (m / 10) ++ "." ++ toString (m % 10)

/-- Format the exact fraction `a / b` (with `b > 0`) with one decimal place,
the model of `f"{...:.1f}"` applied to the script's percentage. -/
def fmt1frac (a b : Int) : String :=
  let n := rhe (10 * a) b
  if n < 0 then "-" ++ fmt1n (-n).toNat else fmt1n n.toNat

/-- The totals line: `Total: {o//1024}KB -> {n//1024}KB, saved {saved//1024}KB
({pct:.1f}%)`, where `saved = o - n` is a signed integer, `//` is Python's
floor division, and `pct` is `saved / o * 100` (exact value; `0` when `o` is
`0` to avoid the division by zero). -/
def totalsLine (o n : Nat) : String :=
  let saved : Int := (o : Int) - (n : Int)
  "Total: " ++ toString (o / 1024) ++ "KB -> " ++ toString (n / 1024) ++
    "KB, saved " ++ toString (Int.fdiv saved 1024) ++ "KB (" ++
    (if o ≠ 0 then fmt1frac (saved * 100) (o : Int) else fmt1frac 0 1) ++ "%)"

/-- Everything `main` prints after the loop: one line per result, the `---`
separator, and the totals line. -/
def reportOf (rs : List FileResult) : List String :=
  rs.map fileLine ++ ["---", totalsLine (totalOrig rs) (totalNew rs)]

/-- The observable outcome of running the script: `sys.exit(code)` before the
traversal, an uncaught exception (nonzero interpreter exit), or normal
completion (exit code 0) with the final filesystem, the results and the
printed report. -/
inductive RunOutcome where
  | exited (code : Nat) (fs : Fsys)
  | crashed (msg : String)
  | finished (fs : Fsys) (results : List FileResult) (out : List String)
deriving DecidableEq

/-- `dest_root.mkdir(parents=True, exist_ok=True)` performed by `main` before
the traversal whenever `--inplace` is not set. -/
def destMkdir (args : Args) (fs : Fsys) : Except String Fsys :=
  if args.inplace then Except.ok fs else mkdirp fs (destRootOf args)

/-- The script's `main(argv)` (named `mainRun` because Lean reserves `main`):
validation (exit 2 on missing source or on `--dest` together with
`--inplace`), destination-root creation, traversal, and the report. -/
def mainRun (codec : Codec) (args : Args) (fs : Fsys) : RunOutcome :=
  if existsPath fs args.src = false then RunOutcome.exited 2 fs
  else if args.inplace && args.dest.isSome then RunOutcome.exited 2 fs
  else
    match destMkdir args fs with
    | Except.error e => RunOutcome.crashed e
    | Except.ok fs1 =>
      match processAll codec args (destRootOf args) fs1 (iter_images fs1 args.src) with
      | Except.error e => RunOutcome.crashed e
      | Except.ok fsrs => RunOutcome.finished fsrs.1 fsrs.2 (reportOf fsrs.2)

/-- The result list of a finished run (empty otherwise). -/
def outResults : RunOutcome → List FileResult
  | RunOutcome.finished _ rs _ => rs
  | _ => []

/-- The final filesystem of a finished run. -/
def outFsys : RunOutcome → Fsys
  | RunOutcome.finished fs _ _ => fs
  | RunOutcome.exited _ fs => fs
  | RunOutcome.crashed _ => { files := [], dirs := [] }

/-- The printed lines of a finished run. -/
def outLines : RunOutcome → List String
  | RunOutcome.finished _ _ out => out
  | _ => []

/-- The `new_size` of the `i`-th result of a finished run. -/
def newSizeAt (i : Nat) (o : RunOutcome) : Nat :=
  ((outResults o).getD i { src := [], dst := [], status := "", orig_size := 0,
                           new_size := 0 }).new_size

theorem lookupF_setFile_self (l : List (FPath × FileContent)) (p : FPath) (c : FileContent) :
    lookupF (setFile l p c) p = some c := by
  induction l with
  | nil => simp [setFile, lookupF]
  | cons e rest ih =>
    by_cases h : e.1 = p
    · simp [setFile, h, lookupF]
    · simp [setFile, h, lookupF, ih]

theorem lookupF_setFile_ne (l : List (FPath × FileContent)) (p q : FPath) (c : FileContent)
    (h : q ≠ p) : lookupF (setFile l p c) q = lookupF l q := by
  induction l with
  | nil =>
    simp only [setFile, lookupF]
    rw [if_neg (fun hh : p = q => h hh.symm)]
  | cons e rest ih =>
    by_cases he : e.1 = p
    · rw [setFile, if_pos he, lookupF, lookupF,
        if_neg (fun hh : p = q => h hh.symm), if_neg (fun hh : e.1 = q => h (hh.symm.trans he))]
    · rw [setFile, if_neg he, lookupF, lookupF]
      by_cases hq : e.1 = q
      · rw [if_pos hq, if_pos hq]
      · rw [if_neg hq, if_neg hq, ih]

theorem lookupF_removeF_self (l : List (FPath × FileContent)) (p : FPath) :
    lookupF (removeF l p) p = none := by
  induction l with
  | nil => rfl
  | cons e rest ih =>
    by_cases h : e.1 = p
    · rw [removeF, if_pos h]; exact ih
    · rw [removeF, if_neg h, lookupF, if_neg h]; exact ih

theorem lookupF_removeF_ne (l : List (FPath × FileContent)) (p q : FPath) (h : q ≠ p) :
    lookupF (removeF l p) q = lookupF l q := by
  induction l with
  | nil => rfl
  | cons e rest ih =>
    by_cases he : e.1 = p
    · rw [removeF, if_pos he, lookupF, if_neg (fun hh : e.1 = q => h (hh.symm.trans he))]
      exact ih
    · rw [removeF, if_neg he, lookupF, lookupF]
      by_cases hq : e.1 = q
      · rw [if_pos hq, if_pos hq]
      · rw [if_neg hq, if_neg hq, ih]

theorem mkdirp_ok_files {fs fs' : Fsys} {p : FPath} (h : mkdirp fs p = Except.ok fs') :
    fs'.files = fs.files := by
  unfold mkdirp at h
  split at h
  · cases h
  · cases h; rfl

theorem writeFile_ok_files {fs fs' : Fsys} {p : FPath} {c : FileContent}
    (h : writeFile fs p c = Except.ok fs') :
    fs'.files = setFile fs.files p c ∧ fs'.dirs = fs.dirs := by
  unfold writeFile at h
  split at h
  · cases h
  · cases h; exact ⟨rfl, rfl⟩

theorem findFile_of_files_eq {fs fs' : Fsys} (h : fs'.files = fs.files) (p : FPath) :
    findFile fs' p = findFile fs p := by
  unfold findFile; rw [h]

theorem statSize_of_files_eq {fs fs' : Fsys} (h : fs'.files = fs.files) (p : FPath) :
    statSize fs' p = statSize fs p := by
  unfold statSize; rw [findFile_of_files_eq h]

/-- Complete case analysis of a non-crashing `optimize_image` call: the
directory step succeeded, and then either the decode failed (error result, no
file written), or the file decoded to an image that was copied (unknown
format) or re-encoded (known format), writing exactly one file at `dst`. -/
theorem optimize_ok_cases {codec : Codec} {fs : Fsys} {src dst : FPath} {q : Nat}
    {fs' : Fsys} {r : FileResult}
    (h : optimize_image codec fs src dst q = Except.ok (fs', r)) :
    ∃ fs1, mkdirp fs (parentPath dst) = Except.ok fs1 ∧
      ((∃ e, openImage fs1 src = Except.error e ∧ fs' = fs1 ∧
          r = { src := src, dst := dst, status := "error: " ++ e,
                orig_size := 0, new_size := 0 }) ∨
       (∃ img sz, findFile fs src = some (FileContent.valid img sz) ∧
         (((["JPEG", "PNG", "WEBP", "GIF"].contains img.fmt) = false ∧
             fs'.files = setFile fs.files dst (FileContent.valid img sz) ∧
             fs'.dirs = fs1.dirs ∧
             r = { src := src, dst := dst, status := "copied",
                   orig_size := sz, new_size := sz }) ∨
          ((["JPEG", "PNG", "WEBP", "GIF"].contains img.fmt) = true ∧
            ∃ pr, encodeDispatch codec img q = Except.ok pr ∧
             fs'.files = setFile fs.files dst (FileContent.valid pr.1 pr.2) ∧
             fs'.dirs = fs1.dirs ∧
             r = { src := src, dst := dst, status := "optimized",
                   orig_size := sz, new_size := pr.2 })))) := by
  unfold optimize_image at h
  split at h
  · cases h
  next fs1 hm =>
  refine ⟨fs1, hm, ?_⟩
  have hfiles : fs1.files = fs.files := mkdirp_ok_files hm
  split at h
  next e ho =>
    cases h
    exact Or.inl ⟨e, ho, rfl, rfl⟩
  next img ho =>
    obtain ⟨sz, hc⟩ : ∃ sz, findFile fs1 src = some (FileContent.valid img sz) := by
      unfold openImage at ho
      cases hc : findFile fs1 src with
      | none => rw [hc] at ho; cases ho
      | some c =>
        cases c with
        | invalid m s => rw [hc] at ho; cases ho
        | valid img' s => rw [hc] at ho; cases ho; exact ⟨s, rfl⟩
    have hstat : statSize fs1 src = sz := by
      rw [statSize, hc]
      rfl
    have hfind0 : findFile fs src = some (FileContent.valid img sz) := by
      rw [← findFile_of_files_eq hfiles src]; exact hc
    refine Or.inr ⟨img, sz, hfind0, ?_⟩
    split at h
    next hfmt =>
      simp only [copy2, hc] at h
      split at h
      · cases h
      next fs2 hw =>
        obtain ⟨hwf, hwd⟩ := writeFile_ok_files hw
        have hs2 : statSize fs2 dst = sz := by
          rw [statSize, findFile, hwf, lookupF_setFile_self]
          rfl
        rw [hstat, hs2] at h
        cases h
        refine Or.inl ⟨hfmt, ?_, hwd, rfl⟩
        rw [hwf, hfiles]
    next hfmt =>
      have hfmt' : (["JPEG", "PNG", "WEBP", "GIF"].contains img.fmt) = true := by
        revert hfmt
        cases (["JPEG", "PNG", "WEBP", "GIF"].contains img.fmt) <;> simp
      split at h
      · cases h
      next pr he =>
        split at h
        · cases h
        next fs2 hw =>
          obtain ⟨hwf, hwd⟩ := writeFile_ok_files hw
          have hs2 : statSize fs2 dst = pr.2 := by
            rw [statSize, findFile, hwf, lookupF_setFile_self]
            rfl
          rw [hstat, hs2] at h
          cases h
          refine Or.inr ⟨hfmt', pr, he, ?_, hwd, rfl⟩
          rw [hwf, hfiles]

/-- A status of the form `error: <m>` differs from any string not starting
with `e`. -/
theorem error_status_ne (m t : String) (hne : t.data.head? ≠ some 'e') :
    "error: " ++ m ≠ t := by
  intro h
  have hd := congrArg String.data h
  rw [String.data_append] at hd
  have hh := congrArg List.head? hd
  have ht : t.data.head? = some 'e' := hh.symm.trans rfl
  exact hne ht

/-- `status.startswith(pre)` holds for every `error: <m>` status when `pre` is
a prefix of `error: `. -/
theorem pyStartswith_error (m pre : String) (hp : pre.data <+: "error: ".data) :
    pyStartswith ("error: " ++ m) pre = true := by
  rw [pyStartswith]
  apply List.isPrefixOf_iff_prefix.mpr
  have h2 : "error: ".data <+: ("error: " ++ m).data := by
    rw [String.data_append]; exact ⟨m.data, rfl⟩
  exact hp.trans h2

/-- The copy branch of `optimize_image`: an image whose decoded format is not
one of the four known ones is copied byte-for-byte, and the result records the
source size for both sizes. -/
theorem copy_branch_spec {codec : Codec} {fs : Fsys} {src dst : FPath} {q : Nat}
    {fs' : Fsys} {r : FileResult} {img : Img} {sz : Nat}
    (hsrc : findFile fs src = some (FileContent.valid img sz))
    (hfmt : (["JPEG", "PNG", "WEBP", "GIF"].contains img.fmt) = false)
    (h : optimize_image codec fs src dst q = Except.ok (fs', r)) :
    r = { src := src, dst := dst, status := "copied",
          orig_size := sz, new_size := sz } ∧
    findFile fs' dst = some (FileContent.valid img sz) := by
  obtain ⟨fs1, hm, hcases⟩ := optimize_ok_cases h
  have hfiles : fs1.files = fs.files := mkdirp_ok_files hm
  rcases hcases with ⟨e, ho, _, _⟩ | ⟨img', sz', hfind, hbr | hbr⟩
  · rw [openImage, findFile_of_files_eq hfiles, hsrc] at ho
    cases ho
  · obtain ⟨_, hwf, _, hr⟩ := hbr
    rw [hsrc] at hfind
    injection hfind with hfind
    injection hfind with himg hsz
    subst himg
    subst hsz
    refine ⟨hr, ?_⟩
    rw [findFile, hwf, lookupF_setFile_self]
  · obtain ⟨hfmt', _⟩ := hbr
    rw [hsrc] at hfind
    injection hfind with hfind
    injection hfind with himg hsz
    subst himg
    rw [hfmt'] at hfmt
    cases hfmt

/-- Shared concrete codec for witnesses: every encode succeeds with a fixed
17-byte output. -/
def codec0 : Codec := { encode := fun img _ _ => Except.ok (img, 17) }

/-- Shared concrete image: an RGB JPEG with EXIF. -/
def imgJ : Img :=
  { fmt := "JPEG", mode := "RGB", w := 2, h := 1,
    px := [{ r := 10, g := 20, b := 30, a := 255 }, { r := 1, g := 2, b := 3, a := 255 }],
    exif := some [7, 8] }

/-- Shared concrete image of an unsupported format (BMP). -/
def imgB : Img :=
  { fmt := "BMP", mode := "RGB", w := 1, h := 1,
    px := [{ r := 5, g := 6, b := 7, a := 255 }], exif := none }

/-- Shared concrete source tree with one JPEG, one BMP and one undecodable
file. -/
def fsA : Fsys :=
  { files := [ (["s", "a.jpg"], FileContent.valid imgJ 1000),
               (["s", "b.png"], FileContent.valid imgB 300),
               (["s", "bad.gif"], FileContent.invalid "cannot identify image file" 7) ],
    dirs := [["s"]] }

/-- The per-file outcome of an `optimize_image` call, for witnesses. -/
def optFsOf (x : Except String (Fsys × FileResult)) : Fsys :=
  match x with
  | Except.ok p => p.1
  | Except.error _ => { files := [], dirs := [] }

/-- The result component of an `optimize_image` call, for witnesses. -/
def optResOf (x : Except String (Fsys × FileResult)) : FileResult :=
  match x with
  | Except.ok p => p.2
  | Except.error _ => { src := [], dst := [], status := "", orig_size := 0, new_size := 0 }

/-- C4: an invocation with a missing source directory, or with `--dest` and
`--inplace` both given, exits with code 2 with the filesystem untouched
(nothing written, no file processed). -/
theorem C4_invocation_errors (codec : Codec) (args : Args) (fs : Fsys)
    (h : existsPath fs args.src = false ∨ (args.inplace = true ∧ args.dest.isSome = true)) :
    mainRun codec args fs = RunOutcome.exited 2 fs := by
  cases hex : existsPath fs args.src
  · simp [mainRun, hex]
  · rcases h with h | ⟨h1, h2⟩
    · rw [hex] at h; cases h
    · simp [mainRun, hex, h1, h2]

/-- Witness for C4 at a concrete input: source `nosuch` does not exist, the
run exits 2 and leaves the filesystem unchanged. -/
theorem C4_witness :
    mainRun codec0
      { src := ["nosuch"], dest := none, inplace := false, quality := 85, dryRun := false }
      fsA = RunOutcome.exited 2 fsA :=
  C4_invocation_errors codec0
    { src := ["nosuch"], dest := none, inplace := false, quality := 85, dryRun := false }
    fsA (Or.inl (by decide))

/-- C10: every result returned by `optimize_image` has status `optimized`,
`copied`, or `error: <m>`; the placeholder status `skipped` is never
returned. -/
theorem C10_status_values (codec : Codec) (fs : Fsys) (src dst : FPath) (q : Nat)
    (fs' : Fsys) (r : FileResult)
    (h : optimize_image codec fs src dst q = Except.ok (fs', r)) :
    (r.status = "optimized" ∨ r.status = "copied" ∨ ∃ m, r.status = "error: " ++ m) ∧
    r.status ≠ "skipped" := by
  obtain ⟨fs1, hm, hcases⟩ := optimize_ok_cases h
  rcases hcases with ⟨e, _, _, hr⟩ | ⟨img, sz, _, hbr | hbr⟩
  · subst hr
    exact ⟨Or.inr (Or.inr ⟨e, rfl⟩), error_status_ne e "skipped" (by decide)⟩
  · obtain ⟨_, _, _, hr⟩ := hbr
    subst hr
    exact ⟨Or.inr (Or.inl rfl), show ("copied" : String) ≠ "skipped" by decide⟩
  · obtain ⟨_, pr, _, _, _, hr⟩ := hbr
    subst hr
    exact ⟨Or.inl rfl, show ("optimized" : String) ≠ "skipped" by decide⟩

/-- Witness for C10 at a concrete input: the JPEG in `fsA` is optimized and
its status is not `skipped`. -/
theorem C10_witness :
    ((optResOf (optimize_image codec0 fsA ["s", "a.jpg"] ["o", "a.jpg"] 85)).status = "optimized" ∨
     (optResOf (optimize_image codec0 fsA ["s", "a.jpg"] ["o", "a.jpg"] 85)).status = "copied" ∨
     ∃ m, (optResOf (optimize_image codec0 fsA ["s", "a.jpg"] ["o", "a.jpg"] 85)).status =
       "error: " ++ m) ∧
    (optResOf (optimize_image codec0 fsA ["s", "a.jpg"] ["o", "a.jpg"] 85)).status ≠ "skipped" :=
  C10_status_values codec0 fsA ["s", "a.jpg"] ["o", "a.jpg"] 85
    (optFsOf (optimize_image codec0 fsA ["s", "a.jpg"] ["o", "a.jpg"] 85))
    (optResOf (optimize_image codec0 fsA ["s", "a.jpg"] ["o", "a.jpg"] 85))
    (by rfl)

/-- C6: `new_size` is populated only when a write actually occurred.  For
`error: <m>` and `skipped` statuses it is `0`; conversely a nonzero `new_size`
means the destination file was just written, with exactly that size. -/
theorem C6_newsize_invariant (codec : Codec) (fs : Fsys) (src dst : FPath) (q : Nat)
    (fs' : Fsys) (r : FileResult)
    (h : optimize_image codec fs src dst q = Except.ok (fs', r)) :
    (((∃ m, r.status = "error: " ++ m) ∨ r.status = "skipped") → r.new_size = 0) ∧
    (r.new_size ≠ 0 → ∃ c, fs'.files = setFile fs.files dst c ∧
      findFile fs' dst = some c ∧ FileContent.size c = r.new_size) := by
  obtain ⟨fs1, hm, hcases⟩ := optimize_ok_cases h
  rcases hcases with ⟨e, _, _, hr⟩ | ⟨img, sz, _, hbr | hbr⟩
  · subst hr
    exact ⟨fun _ => rfl, fun hne => absurd rfl hne⟩
  · obtain ⟨_, hwf, _, hr⟩ := hbr
    subst hr
    refine ⟨?_, ?_⟩
    · rintro (⟨m, hs⟩ | hs)
      · exact absurd hs.symm (error_status_ne m "copied" (by decide))
      · exact absurd hs (show ("copied" : String) ≠ "skipped" by decide)
    · intro _
      exact ⟨FileContent.valid img sz, hwf, by rw [findFile, hwf, lookupF_setFile_self], rfl⟩
  · obtain ⟨_, pr, _, hwf, _, hr⟩ := hbr
    subst hr
    refine ⟨?_, ?_⟩
    · rintro (⟨m, hs⟩ | hs)
      · exact absurd hs.symm (error_status_ne m "optimized" (by decide))
      · exact absurd hs (show ("optimized" : String) ≠ "skipped" by decide)
    · intro _
      exact ⟨FileContent.valid pr.1 pr.2, hwf, by rw [findFile, hwf, lookupF_setFile_self], rfl⟩

/-- Witness for C6 at a concrete input: the optimized JPEG of `fsA`. -/
theorem C6_witness :
    ((((∃ m, (optResOf (optimize_image codec0 fsA ["s", "a.jpg"] ["o", "a.jpg"] 85)).status =
          "error: " ++ m) ∨
       (optResOf (optimize_image codec0 fsA ["s", "a.jpg"] ["o", "a.jpg"] 85)).status =
          "skipped") →
      (optResOf (optimize_image codec0 fsA ["s", "a.jpg"] ["o", "a.jpg"] 85)).new_size = 0) ∧
     ((optResOf (optimize_image codec0 fsA ["s", "a.jpg"] ["o", "a.jpg"] 85)).new_size ≠ 0 →
      ∃ c, (optFsOf (optimize_image codec0 fsA ["s", "a.jpg"] ["o", "a.jpg"] 85)).files =
             setFile fsA.files ["o", "a.jpg"] c ∧
           findFile (optFsOf (optimize_image codec0 fsA ["s", "a.jpg"] ["o", "a.jpg"] 85))
             ["o", "a.jpg"] = some c ∧
           FileContent.size c =
             (optResOf (optimize_image codec0 fsA ["s", "a.jpg"] ["o", "a.jpg"] 85)).new_size)) :=
  C6_newsize_invariant codec0 fsA ["s", "a.jpg"] ["o", "a.jpg"] 85
    (optFsOf (optimize_image codec0 fsA ["s", "a.jpg"] ["o", "a.jpg"] 85))
    (optResOf (optimize_image codec0 fsA ["s", "a.jpg"] ["o", "a.jpg"] 85))
    (by rfl)

/-- C9: a decoded image whose format is none of JPEG/PNG/WEBP/GIF is copied
byte-for-byte with status `copied` and unchanged size, and re-running the
optimizer on the copied output yields `copied` again with the same size. -/
theorem C9_copy_idempotent (codec : Codec) (fs : Fsys) (src dst : FPath) (q : Nat)
    (img : Img) (sz : Nat) (fs' : Fsys) (r : FileResult)
    (hsrc : findFile fs src = some (FileContent.valid img sz))
    (hfmt : (["JPEG", "PNG", "WEBP", "GIF"].contains img.fmt) = false)
    (h : optimize_image codec fs src dst q = Except.ok (fs', r)) :
    r.status = "copied" ∧ r.orig_size = sz ∧ r.new_size = sz ∧
    findFile fs' dst = some (FileContent.valid img sz) ∧
    (∀ dst2 q2 fs2 r2, optimize_image codec fs' dst dst2 q2 = Except.ok (fs2, r2) →
      r2.status = "copied" ∧ r2.orig_size = sz ∧ r2.new_size = sz) := by
  obtain ⟨hr, hout⟩ := copy_branch_spec hsrc hfmt h
  subst hr
  refine ⟨rfl, rfl, rfl, hout, ?_⟩
  intro dst2 q2 fs2 r2 h2
  obtain ⟨hr2, _⟩ := copy_branch_spec hout hfmt h2
  subst hr2
  exact ⟨rfl, rfl, rfl⟩

/-- Witness for C9 at a concrete input: the BMP in `fsA` is copied, and the
copy of the copy is again `copied` with size 300. -/
theorem C9_witness :
    (optResOf (optimize_image codec0 fsA ["s", "b.png"] ["o", "b.png"] 85)).status = "copied" ∧
    (optResOf (optimize_image codec0 fsA ["s", "b.png"] ["o", "b.png"] 85)).orig_size = 300 ∧
    (optResOf (optimize_image codec0 fsA ["s", "b.png"] ["o", "b.png"] 85)).new_size = 300 ∧
    findFile (optFsOf (optimize_image codec0 fsA ["s", "b.png"] ["o", "b.png"] 85))
      ["o", "b.png"] = some (FileContent.valid imgB 300) ∧
    (∀ dst2 q2 fs2 r2,
      optimize_image codec0 (optFsOf (optimize_image codec0 fsA ["s", "b.png"] ["o", "b.png"] 85))
        ["o", "b.png"] dst2 q2 = Except.ok (fs2, r2) →
      r2.status = "copied" ∧ r2.orig_size = 300 ∧ r2.new_size = 300) :=
  C9_copy_idempotent codec0 fsA ["s", "b.png"] ["o", "b.png"] 85 imgB 300
    (optFsOf (optimize_image codec0 fsA ["s", "b.png"] ["o", "b.png"] 85))
    (optResOf (optimize_image codec0 fsA ["s", "b.png"] ["o", "b.png"] 85))
    (by rfl) (by rfl) (by rfl)

/-- Decode-failure behaviour of `optimize_image`: when the directory step
succeeds and `Image.open` raises, the call returns normally with an
`error: <msg>` result whose sizes are both `0`, and writes no file. -/
theorem optimize_decode_error (codec : Codec) (fs : Fsys) (src dst : FPath) (q : Nat)
    (fs1 : Fsys) (e : String)
    (hm : mkdirp fs (parentPath dst) = Except.ok fs1)
    (ho : openImage fs1 src = Except.error e) :
    optimize_image codec fs src dst q =
      Except.ok (fs1, { src := src, dst := dst, status := "error: " ++ e,
                        orig_size := 0, new_size := 0 }) := by
  simp only [optimize_image, hm, ho]

/-- C3 counterexample: on the undecodable `bad.gif` of `fsA` (on-disk size 7)
the result records `orig_size = 0`, not the on-disk size claimed by the spec;
the status and the absence of a destination file are as claimed. -/
theorem C3_counterexample :
    (optResOf (optimize_image codec0 fsA ["s", "bad.gif"] ["o", "bad.gif"] 85)).status =
      "error: cannot identify image file" ∧
    statSize fsA ["s", "bad.gif"] = 7 ∧
    (optResOf (optimize_image codec0 fsA ["s", "bad.gif"] ["o", "bad.gif"] 85)).orig_size = 0 ∧
    (optResOf (optimize_image codec0 fsA ["s", "bad.gif"] ["o", "bad.gif"] 85)).orig_size ≠
      statSize fsA ["s", "bad.gif"] ∧
    findFile (optFsOf (optimize_image codec0 fsA ["s", "bad.gif"] ["o", "bad.gif"] 85))
      ["o", "bad.gif"] = none := by
  decide

/-- C3 amended: on decode failure the per-file operation returns a FileResult
with status `error: <decoder message>` whose `orig_size` is left at `0` (the
stat happens only after a successful decode), and no destination file is
written (the file map is unchanged; only directories may have been created). -/
theorem C3_decode_error_result (codec : Codec) (fs : Fsys) (src dst : FPath) (q : Nat)
    (fs1 : Fsys) (e : String)
    (hm : mkdirp fs (parentPath dst) = Except.ok fs1)
    (ho : openImage fs1 src = Except.error e) :
    optimize_image codec fs src dst q =
      Except.ok (fs1, { src := src, dst := dst, status := "error: " ++ e,
                        orig_size := 0, new_size := 0 }) ∧
    fs1.files = fs.files :=
  ⟨optimize_decode_error codec fs src dst q fs1 e hm ho, mkdirp_ok_files hm⟩

/-- Witness for C3 at a concrete input: the undecodable `bad.gif` of `fsA`. -/
theorem C3_witness :
    optimize_image codec0 fsA ["s", "bad.gif"] ["o", "bad.gif"] 85 =
      Except.ok ({ files := fsA.files, dirs := [["o"], ["s"]] },
        { src := ["s", "bad.gif"], dst := ["o", "bad.gif"],
          status := "error: " ++ "cannot identify image file",
          orig_size := 0, new_size := 0 }) ∧
    ({ files := fsA.files, dirs := [["o"], ["s"]] } : Fsys).files = fsA.files :=
  C3_decode_error_result codec0 fsA ["s", "bad.gif"] ["o", "bad.gif"] 85
    { files := fsA.files, dirs := [["o"], ["s"]] } "cannot identify image file"
    (by rfl) (by rfl)

/-- Decidable test: the file at `p` exists and fails to decode. -/
def isInvalidFile (fs : Fsys) (p : FPath) : Bool :=
  match findFile fs p with
  | some (FileContent.invalid _ _) => true
  | _ => false

/-- The decoder message of the file at `p` (empty when it decodes). -/
def errMsgOf (fs : Fsys) (p : FPath) : String :=
  match findFile fs p with
  | some (FileContent.invalid m _) => m
  | _ => ""

/-- Decidable test: no regular file occupies `p` or any ancestor of `p`, so
`p.mkdir(parents=True, exist_ok=True)` succeeds. -/
def noFileBlocks (fs : Fsys) (p : FPath) : Bool :=
  (pathPrefixes p).all (fun q => (findFile fs q).isNone)

theorem isInvalidFile_spec {fs : Fsys} {p : FPath} (h : isInvalidFile fs p = true) :
    findFile fs p = some (FileContent.invalid (errMsgOf fs p) ((findFile fs p).elim 0
      FileContent.size)) := by
  unfold isInvalidFile at h
  unfold errMsgOf
  cases hc : findFile fs p with
  | none => rw [hc] at h; cases h
  | some c =>
    cases c with
    | invalid m s => rfl
    | valid img s => rw [hc] at h; cases h

theorem noFileBlocks_congr {fs fs' : Fsys} (hf : fs'.files = fs.files) (p : FPath) :
    noFileBlocks fs' p = noFileBlocks fs p := by
  unfold noFileBlocks
  congr 1
  funext q
  rw [findFile_of_files_eq hf]

theorem mkdirp_of_noFileBlocks {fs : Fsys} {p : FPath} (h : noFileBlocks fs p = true) :
    ∃ fs', mkdirp fs p = Except.ok fs' ∧ fs'.files = fs.files := by
  unfold noFileBlocks at h
  rw [List.all_eq_true] at h
  have hany : ((pathPrefixes p).any fun q => (findFile fs q).isSome) = false := by
    rw [List.any_eq_false]
    intro q hq
    have := h q hq
    simp only [Option.isNone_iff_eq_none] at this
    simp [this]
  have hmk : mkdirp fs p = Except.ok
      { files := fs.files,
        dirs := (pathPrefixes p).foldl
          (fun ds q => if ds.contains q then ds else q :: ds) fs.dirs } := by
    rw [mkdirp, hany]
    simp
  exact ⟨_, hmk, rfl⟩

theorem iter_images_congr {fs fs' : Fsys} (hf : fs'.files = fs.files) (src : FPath) :
    iter_images fs' src = iter_images fs src := by
  unfold iter_images
  rw [hf]

/-- Traversal loop over a list of decode-failing files: every file yields an
`error:` result, the loop never aborts, and the file map is unchanged. -/
theorem processAll_all_invalid (codec : Codec) (args : Args) (destRoot : FPath)
    (fs0 : Fsys) (hdry : args.dryRun = false) (hinp : args.inplace = false) :
    ∀ (rels : List FPath) (fsX : Fsys), fsX.files = fs0.files →
    (∀ rel ∈ rels, isInvalidFile fs0 (args.src ++ rel) = true) →
    (∀ rel ∈ rels, noFileBlocks fs0 (parentPath (destRoot ++ rel)) = true) →
    ∃ fsY, processAll codec args destRoot fsX rels =
      Except.ok (fsY, rels.map (fun rel =>
        { src := args.src ++ rel, dst := destRoot ++ rel,
          status := "error: " ++ errMsgOf fs0 (args.src ++ rel),
          orig_size := 0, new_size := 0 })) ∧ fsY.files = fs0.files := by
  intro rels
  induction rels with
  | nil => intro fsX hfeq _ _; exact ⟨fsX, rfl, hfeq⟩
  | cons rel rest ih =>
    intro fsX hfeq hinv hblk
    have hblk1 : noFileBlocks fsX (parentPath (destRoot ++ rel)) = true := by
      rw [noFileBlocks_congr hfeq]
      exact hblk rel (List.mem_cons_self rel rest)
    obtain ⟨fs1, hm, hf1⟩ := mkdirp_of_noFileBlocks hblk1
    have hf10 : fs1.files = fs0.files := hf1.trans hfeq
    have hfindX : findFile fs1 (args.src ++ rel) =
        some (FileContent.invalid (errMsgOf fs0 (args.src ++ rel))
          ((findFile fs0 (args.src ++ rel)).elim 0 FileContent.size)) := by
      rw [findFile_of_files_eq hf10]
      exact isInvalidFile_spec (hinv rel (List.mem_cons_self rel rest))
    have ho : openImage fs1 (args.src ++ rel) =
        Except.error (errMsgOf fs0 (args.src ++ rel)) := by
      rw [openImage, hfindX]
    have hopt := optimize_decode_error codec fsX (args.src ++ rel) (destRoot ++ rel)
      args.quality fs1 (errMsgOf fs0 (args.src ++ rel)) hm ho
    obtain ⟨fsY, hrest, hfY⟩ := ih fs1 hf10
      (fun r hr => hinv r (List.mem_cons_of_mem rel hr))
      (fun r hr => hblk r (List.mem_cons_of_mem rel hr))
    refine ⟨fsY, ?_, hfY⟩
    rw [processAll, processOne, hdry, hinp]
    simp only [if_neg (by simp : ¬ (false = true)), hopt, hrest]
    rfl

/-- Concrete failing codec: every encode raises (like a full disk or an
encoder error during `img.save`). -/
def codecFail : Codec := { encode := fun _ _ _ => Except.error "disk full" }

/-- C1 counterexample: a write (encode) failure on the first file aborts the
whole run with an uncaught exception — the process does not record the failure
and continue, and does not exit 0, contrary to the claim. -/
theorem C1_counterexample :
    mainRun codecFail
      { src := ["s"], dest := some ["o"], inplace := false, quality := 85, dryRun := false }
      fsA = RunOutcome.crashed "disk full" := by
  rfl

/-- C1 amended: a decode failure does not abort the run — `optimize_image`
returns normally with an `error:` status, and a run all of whose files fail to
decode completes the traversal, reports every file with an `error:` status and
exits 0 — but an encode or write failure is uncaught and aborts the run. -/
theorem C1_decode_failure_non_fatal :
    (∀ (codec : Codec) (fs : Fsys) (src dst : FPath) (q : Nat) (fs1 : Fsys) (e : String),
      mkdirp fs (parentPath dst) = Except.ok fs1 →
      openImage fs1 src = Except.error e →
      ∃ r, optimize_image codec fs src dst q = Except.ok (fs1, r) ∧
        pyStartswith r.status "error:" = true) ∧
    (∀ (codec : Codec) (args : Args) (fs : Fsys) (d : FPath),
      args.dest = some d → args.inplace = false → args.dryRun = false →
      existsPath fs args.src = true →
      noFileBlocks fs d = true →
      (∀ rel ∈ iter_images fs args.src, isInvalidFile fs (args.src ++ rel) = true) →
      (∀ rel ∈ iter_images fs args.src, noFileBlocks fs (parentPath (d ++ rel)) = true) →
      ∃ fs2, mainRun codec args fs =
        RunOutcome.finished fs2
          ((iter_images fs args.src).map (fun rel =>
            { src := args.src ++ rel, dst := d ++ rel,
              status := "error: " ++ errMsgOf fs (args.src ++ rel),
              orig_size := 0, new_size := 0 }))
          (reportOf ((iter_images fs args.src).map (fun rel =>
            { src := args.src ++ rel, dst := d ++ rel,
              status := "error: " ++ errMsgOf fs (args.src ++ rel),
              orig_size := 0, new_size := 0 })))) := by
  constructor
  · intro codec fs src dst q fs1 e hm ho
    exact ⟨_, optimize_decode_error codec fs src dst q fs1 e hm ho,
      pyStartswith_error e "error:" (by decide)⟩
  · intro codec args fs d hdest hinp hdry hex hroot hinv hblk
    obtain ⟨fsr, hmk, hfr⟩ := mkdirp_of_noFileBlocks hroot
    have hiter : iter_images fsr args.src = iter_images fs args.src :=
      iter_images_congr hfr args.src
    have hdr : destRootOf args = d := by rw [destRootOf, hdest]
    obtain ⟨fsY, hall, _⟩ := processAll_all_invalid codec args d fs hdry hinp
      (iter_images fs args.src) fsr hfr hinv hblk
    refine ⟨fsY, ?_⟩
    have hdm : destMkdir args fs = Except.ok fsr := by
      simp [destMkdir, hinp, hdr, hmk]
    rw [mainRun, hex]
    simp [hinp, hdm, hdr, hiter, hall]

/-- Concrete source tree all of whose image files fail to decode. -/
def fsInv : Fsys :=
  { files := [ (["s", "x.jpg"], FileContent.invalid "bad header" 11),
               (["s", "sub", "y.png"], FileContent.invalid "truncated" 22) ],
    dirs := [["s"], ["s", "sub"]] }

/-- Concrete arguments for the all-invalid run. -/
def argsInv : Args :=
  { src := ["s"], dest := some ["o"], inplace := false, quality := 85, dryRun := false }

/-- Witness for C1 at a concrete input: a run over two decode-failing files
completes with both failures recorded and exit 0. -/
theorem C1_witness :
    ∃ fs2, mainRun codec0 argsInv fsInv =
      RunOutcome.finished fs2
        ((iter_images fsInv argsInv.src).map (fun rel =>
          { src := argsInv.src ++ rel, dst := ["o"] ++ rel,
            status := "error: " ++ errMsgOf fsInv (argsInv.src ++ rel),
            orig_size := 0, new_size := 0 }))
        (reportOf ((iter_images fsInv argsInv.src).map (fun rel =>
          { src := argsInv.src ++ rel, dst := ["o"] ++ rel,
            status := "error: " ++ errMsgOf fsInv (argsInv.src ++ rel),
            orig_size := 0, new_size := 0 }))) :=
  C1_decode_failure_non_fatal.2 codec0 argsInv fsInv ["o"]
    rfl rfl rfl (by decide) (by decide) (by decide) (by decide)

/-- Modelled from the spec: the original pixel "composited onto white" —
standard alpha compositing of the pixel over an opaque white background,
rounded to the nearest 8-bit value per channel, with the alpha channel fully
opaque afterwards.  Used as the specification side of C7. -/
def specCompositeWhite (p : Pixel) : Pixel :=
  { r := (p.r * p.a + 255 * (255 - p.a) + 127) / 255,
    g := (p.g * p.a + 255 * (255 - p.a) + 127) / 255,
    b := (p.b * p.a + 255 * (255 - p.a) + 127) / 255,
    a := 255 }

/-- Decidable test for an 8-bit pixel (every channel at most 255). -/
def pixel8 (p : Pixel) : Bool :=
  decide (p.r ≤ 255) && decide (p.g ≤ 255) && decide (p.b ≤ 255) && decide (p.a ≤ 255)

/-- The library's fixed-point blend over a white background agrees with exact
rounded alpha compositing on 8-bit channels. -/
theorem blendChan_white (s a : Nat) (hs : s ≤ 255) (ha : a ≤ 255) :
    blendChan s 255 a = (s * a + 255 * (255 - a) + 127) / 255 := by
  have hq : s * a ≤ 65025 := Nat.mul_le_mul hs ha
  have h1 : muldiv255 255 (255 - a) = 255 - a := by
    unfold muldiv255
    omega
  have h2 : muldiv255 s a = (s * a + 127) / 255 := by
    unfold muldiv255
    generalize hgen : s * a = q at hq ⊢
    omega
  rw [blendChan, h1, h2]
  generalize hgen : s * a = q at hq ⊢
  omega

/-- Concrete JPEG image with an alpha channel and EXIF metadata. -/
def imgAlphaExif : Img :=
  { fmt := "JPEG", mode := "RGBA", w := 1, h := 1,
    px := [{ r := 100, g := 50, b := 25, a := 128 }], exif := some [1, 2] }

/-- C7 counterexample: when the decoded JPEG carries an alpha channel, the
script reads `img.info.get("exif")` from the freshly created white background
image (whose `info` is empty), so the EXIF bytes present on the original are
NOT copied into the save options, contrary to the claim. -/
theorem C7_counterexample :
    imgAlphaExif.mode = "RGBA" ∧ imgAlphaExif.exif = some [1, 2] ∧
    (jpegPrepare imgAlphaExif 85).2.exif = none := by
  decide

/-- C7 amended: a decoded JPEG with alpha is flattened onto an opaque white
background (output mode RGB, all pixels opaque, every pixel equal to the
original composited onto white) and re-encoded with the requested quality,
optimization and progressive scan; EXIF is copied unchanged only when the
image has no alpha channel (and the bytes are nonempty) — the flatten step
replaces the image and drops its metadata. -/
theorem C7_jpeg_branch (img : Img) (q : Nat) (hpx : img.px.all pixel8 = true) :
    (jpegPrepare img q).2.quality = some q ∧
    (jpegPrepare img q).2.optimize = true ∧
    (jpegPrepare img q).2.progressive = true ∧
    ((img.mode = "RGBA" ∨ img.mode = "LA") →
      (jpegPrepare img q).1.mode = "RGB" ∧
      (∀ p ∈ (jpegPrepare img q).1.px, p.a = 255) ∧
      (jpegPrepare img q).1.px = img.px.map specCompositeWhite ∧
      (jpegPrepare img q).2.exif = none) ∧
    (¬(img.mode = "RGBA" ∨ img.mode = "LA") →
      ∀ bs, img.exif = some bs → bs ≠ [] → (jpegPrepare img q).2.exif = some bs) := by
  rw [List.all_eq_true] at hpx
  by_cases hmode : img.mode = "RGBA" ∨ img.mode = "LA"
  · refine ⟨?_, ?_, ?_, fun _ => ⟨?_, ?_, ?_, ?_⟩, fun hcon => absurd hmode hcon⟩
    · simp [jpegPrepare, hmode]
    · simp [jpegPrepare, hmode]
    · simp [jpegPrepare, hmode]
    · simp [jpegPrepare, hmode, pasteWhite]
    · intro p hp
      simp only [jpegPrepare, if_pos hmode, pasteWhite, List.mem_map] at hp
      obtain ⟨p0, _, hp0⟩ := hp
      rw [← hp0]
    · simp only [jpegPrepare, if_pos hmode, pasteWhite]
      apply List.map_congr_left
      intro p hp
      have h8 := hpx p hp
      simp only [pixel8, Bool.and_eq_true, decide_eq_true_eq] at h8
      obtain ⟨⟨⟨hr, hg⟩, hb⟩, ha⟩ := h8
      simp only [specCompositeWhite]
      rw [blendChan_white p.r p.a hr ha, blendChan_white p.g p.a hg ha,
        blendChan_white p.b p.a hb ha]
    · simp [jpegPrepare, hmode, pasteWhite, nonEmptyBytes]
  · refine ⟨?_, ?_, ?_, fun hcon => absurd hcon hmode, fun _ => ?_⟩
    · simp [jpegPrepare, hmode]
    · simp [jpegPrepare, hmode]
    · simp [jpegPrepare, hmode]
    · intro bs hbs hne
      cases bs with
      | nil => exact absurd rfl hne
      | cons x xs =>
        simp [jpegPrepare, hmode, convertRGB, nonEmptyBytes, hbs]

/-- Witness for C7 at a concrete input: an opaque-mode JPEG with EXIF keeps
its metadata, quality 85, optimize and progressive all set. -/
theorem C7_witness :
    (jpegPrepare imgJ 85).2.quality = some 85 ∧
    (jpegPrepare imgJ 85).2.optimize = true ∧
    (jpegPrepare imgJ 85).2.progressive = true ∧
    ((imgJ.mode = "RGBA" ∨ imgJ.mode = "LA") →
      (jpegPrepare imgJ 85).1.mode = "RGB" ∧
      (∀ p ∈ (jpegPrepare imgJ 85).1.px, p.a = 255) ∧
      (jpegPrepare imgJ 85).1.px = imgJ.px.map specCompositeWhite ∧
      (jpegPrepare imgJ 85).2.exif = none) ∧
    (¬(imgJ.mode = "RGBA" ∨ imgJ.mode = "LA") →
      ∀ bs, imgJ.exif = some bs → bs ≠ [] → (jpegPrepare imgJ 85).2.exif = some bs) :=
  C7_jpeg_branch imgJ 85 (by decide)

/-- Every finished run prints the per-file lines followed by the separator and
the totals line built from the accumulated totals. -/
theorem mainRun_finished_report {codec : Codec} {args : Args} {fs fs' : Fsys}
    {rs : List FileResult} {out : List String}
    (h : mainRun codec args fs = RunOutcome.finished fs' rs out) :
    out = reportOf rs := by
  unfold mainRun at h
  split at h
  · cases h
  split at h
  · cases h
  split at h
  · cases h
  next fs1 _ =>
  split at h
  · cases h
  next fsrs _ =>
  injection h with h1 h2 h3
  rw [← h3, ← h2]

/-- Concrete codec whose encoded output is always 1025 bytes — larger than
the 1024-byte source below, making the byte savings negative. -/
def codec1025 : Codec := { encode := fun img _ _ => Except.ok (img, 1025) }

/-- Concrete source tree with a single 1024-byte PNG. -/
def fs8 : Fsys :=
  { files := [(["s", "p.png"], FileContent.valid
      { fmt := "PNG", mode := "RGB", w := 1, h := 1,
        px := [{ r := 0, g := 0, b := 0, a := 255 }], exif := none } 1024)],
    dirs := [["s"]] }

/-- Concrete arguments for the negative-savings run. -/
def args8 : Args :=
  { src := ["s"], dest := some ["o"], inplace := false, quality := 85, dryRun := false }

/-- C8 counterexample: with 1024 original bytes and 1025 new bytes the saved
amount is `-1`, and Python's `//` is floor division, so the totals line shows
`saved -1KB` — truncating division (as the claim states) would show
`saved 0KB`. -/
theorem C8_counterexample :
    (outLines (mainRun codec1025 args8 fs8)).getLastD "" =
      "Total: 1KB -> 1KB, saved -1KB (-0.1%)" ∧
    (outLines (mainRun codec1025 args8 fs8)).getLastD "" ≠
      "Total: 1KB -> 1KB, saved 0KB (-0.1%)" := by
  decide

/-- C8 amended: the totals line reports total original KB, total new KB and
saved KB using Python's floor division by 1024 (which differs from truncation
exactly when the byte savings are negative), and the percentage to one decimal
place, with percentage `0` (printed `0.0`) whenever total original bytes is
`0`; an empty result list yields exactly
`Total: 0KB -> 0KB, saved 0KB (0.0%)`. -/
theorem C8_totals_line :
    (∀ (codec : Codec) (args : Args) (fs fs' : Fsys) (rs : List FileResult)
      (out : List String),
      mainRun codec args fs = RunOutcome.finished fs' rs out →
      out = rs.map fileLine ++
        ["---", totalsLine (totalOrig rs) (totalNew rs)]) ∧
    (∀ n : Nat, totalsLine 0 n =
      "Total: " ++ toString (0 / 1024) ++ "KB -> " ++ toString (n / 1024) ++
      "KB, saved " ++ toString (Int.fdiv ((0 : Int) - (n : Int)) 1024) ++
      "KB (" ++ "0.0" ++ "%)") ∧
    (∀ (codec : Codec) (args : Args) (fs fs' : Fsys) (out : List String),
      mainRun codec args fs = RunOutcome.finished fs' [] out →
      out = ["---", "Total: 0KB -> 0KB, saved 0KB (0.0%)"]) := by
  refine ⟨?_, ?_, ?_⟩
  · intro codec args fs fs' rs out h
    exact mainRun_finished_report h
  · intro n
    rfl
  · intro codec args fs fs' out h
    have := mainRun_finished_report h
    rw [this]
    rfl

/-- Concrete empty source tree and arguments for the empty-run witness. -/
def fsE : Fsys := { files := [], dirs := [["s"]] }

/-- Witness for C8 at a concrete input: an empty source directory prints zero
result lines and the exact zero totals line. -/
theorem C8_witness :
    outLines (mainRun codec0 args8 fsE) =
      ["---", "Total: 0KB -> 0KB, saved 0KB (0.0%)"] :=
  C8_totals_line.2.2 codec0 args8 fsE (outFsys (mainRun codec0 args8 fsE))
    (outLines (mainRun codec0 args8 fsE)) (by rfl)

theorem lookupF_eq_none_of_not_mem {l : List (FPath × FileContent)} {p : FPath}
    (h : p ∉ l.map (fun e => e.1)) : lookupF l p = none := by
  induction l with
  | nil => rfl
  | cons e rest ih =>
    rw [List.map_cons, List.mem_cons] at h
    push_neg at h
    rw [lookupF, if_neg (fun hh : e.1 = p => h.1 hh.symm)]
    exact ih h.2

theorem isPrefixOf_append_self (src rel : FPath) :
    List.isPrefixOf src (src ++ rel) = true :=
  List.isPrefixOf_iff_prefix.mpr ⟨rel, rfl⟩

theorem eq_append_of_isPrefixOf {src p : FPath} (h : List.isPrefixOf src p = true) :
    p = src ++ p.drop src.length := by
  obtain ⟨t, ht⟩ := List.isPrefixOf_iff_prefix.mp h
  rw [← ht, List.drop_left]

/-- Counting lemma for the traversal at the file-map level: a relative path
occurs in the filtered enumeration exactly once when a file with a matching
extension sits at `src ++ rel`, and never otherwise, provided the file map has
no duplicate keys. -/
theorem count_iter_list (src rel : FPath) :
    ∀ l : List (FPath × FileContent), (l.map (fun e => e.1)).Nodup →
    (l.filterMap (iterF src)).count rel =
      if (lookupF l (src ++ rel)).isSome ∧ rel ≠ [] ∧
         imageExts.contains (lowerStr (pathSuffix (src ++ rel))) = true
      then 1 else 0 := by
  intro l
  induction l with
  | nil =>
    intro _
    simp only [List.filterMap_nil, List.count_nil, lookupF, Option.isSome_none]
    rw [if_neg]
    rintro ⟨hc, _, _⟩
    cases hc
  | cons e rest ih =>
    intro hnd
    rw [List.map_cons, List.nodup_cons] at hnd
    obtain ⟨hx, hnd'⟩ := hnd
    have hih := ih hnd'
    by_cases heq : e.1 = src ++ rel
    · have hlk : lookupF (e :: rest) (src ++ rel) = some e.2 := by
        rw [lookupF, if_pos heq]
      have hnone : lookupF rest (src ++ rel) = none := by
        apply lookupF_eq_none_of_not_mem
        rw [← heq]
        exact hx
      rw [hnone] at hih
      have hih0 : (rest.filterMap (iterF src)).count rel = 0 := by
        rw [hih, if_neg]
        rintro ⟨hc, _, _⟩
        cases hc
      by_cases hrel : rel ≠ [] ∧ imageExts.contains (lowerStr (pathSuffix (src ++ rel))) = true
      · have hcond : List.isPrefixOf src e.1 ∧ src.length < e.1.length ∧
            imageExts.contains (lowerStr (pathSuffix e.1)) = true := by
          rw [heq]
          refine ⟨isPrefixOf_append_self src rel, ?_, hrel.2⟩
          rw [List.length_append]
          have hz : rel.length ≠ 0 := fun h0 => hrel.1 (List.length_eq_zero.mp h0)
          omega
        have hfe : iterF src e = some (e.1.drop src.length) := if_pos hcond
        have hdrop : e.1.drop src.length = rel := by rw [heq, List.drop_left]
        rw [hdrop] at hfe
        have hmem : lowerStr (pathSuffix (src ++ rel)) ∈ imageExts := by
          simpa using hrel.2
        simp [List.filterMap_cons, hfe, List.count_cons, hih0, hlk, hrel.1, hmem]
      · rw [if_neg (fun hc => hrel ⟨hc.2.1, hc.2.2⟩)]
        by_cases hcond : List.isPrefixOf src e.1 ∧ src.length < e.1.length ∧
            imageExts.contains (lowerStr (pathSuffix e.1)) = true
        · exfalso
          apply hrel
          constructor
          · intro h0
            subst h0
            have hlt := hcond.2.1
            rw [heq, List.append_nil] at hlt
            exact absurd rfl (Nat.ne_of_lt hlt)
          · rw [← heq]
            exact hcond.2.2
        · have hfe : iterF src e = none := if_neg hcond
          simp only [List.filterMap_cons, hfe, hih0]
    · have hlk : lookupF (e :: rest) (src ++ rel) = lookupF rest (src ++ rel) := by
        rw [lookupF, if_neg heq]
      rw [hlk]
      by_cases hcond : List.isPrefixOf src e.1 ∧ src.length < e.1.length ∧
          imageExts.contains (lowerStr (pathSuffix e.1)) = true
      · have hfe : iterF src e = some (e.1.drop src.length) := if_pos hcond
        have hne : ¬ (e.1.drop src.length = rel) := by
          intro hdrop
          apply heq
          have hpe := eq_append_of_isPrefixOf hcond.1
          rw [hpe, hdrop]
        simp only [List.filterMap_cons, hfe, List.count_cons, hih]
        simp [hne]
      · have hfe : iterF src e = none := if_neg hcond
        simp only [List.filterMap_cons, hfe, hih]

theorem optimize_ok_result_src {codec : Codec} {fs : Fsys} {src dst : FPath} {q : Nat}
    {fs' : Fsys} {r : FileResult}
    (h : optimize_image codec fs src dst q = Except.ok (fs', r)) :
    r.src = src ∧ r.dst = dst := by
  obtain ⟨fs1, _, hc⟩ := optimize_ok_cases h
  rcases hc with ⟨e, _, _, hr⟩ | ⟨img, sz, _, ⟨_, _, _, hr⟩ | ⟨_, pr, _, _, _, hr⟩⟩ <;>
    subst hr <;> exact ⟨rfl, rfl⟩

theorem processOne_src {codec : Codec} {args : Args} {destRoot : FPath} {fs : Fsys}
    {rel : FPath} {fs2 : Fsys} {r : FileResult}
    (h : processOne codec args destRoot fs rel = Except.ok (fs2, r)) :
    r.src = args.src ++ rel := by
  unfold processOne at h
  dsimp only at h
  by_cases hdry : args.dryRun = true
  · rw [if_pos hdry] at h
    split at h
    · cases h
    next fsr hopt =>
      injection h with h1
      have hr : r = fsr.2 := (congrArg Prod.snd h1).symm
      rw [hr]
      exact (optimize_ok_result_src hopt).1
  · rw [if_neg hdry] at h
    exact (optimize_ok_result_src h).1

theorem processAll_srcs (codec : Codec) (args : Args) (destRoot : FPath) :
    ∀ (rels : List FPath) (fsX fsY : Fsys) (rs : List FileResult),
    processAll codec args destRoot fsX rels = Except.ok (fsY, rs) →
    rs.map (fun r => r.src) = rels.map (fun rel => args.src ++ rel) := by
  intro rels
  induction rels with
  | nil =>
    intro fsX fsY rs h
    injection h with h1
    have : rs = [] := (congrArg Prod.snd h1).symm
    rw [this]
    rfl
  | cons rel rest ih =>
    intro fsX fsY rs h
    rw [processAll] at h
    split at h
    · cases h
    next fsr h1 =>
      split at h
      · cases h
      next fsrs h2 =>
        injection h with h3
        have hrs : rs = fsr.2 :: fsrs.2 := (congrArg Prod.snd h3).symm
        rw [hrs, List.map_cons, List.map_cons, processOne_src h1,
          ih fsr.1 fsrs.1 fsrs.2 h2]

/-- C5: with a duplicate-free file map, a relative path appears in the
traversal exactly once when a regular file with an allowed extension sits at
`src ++ rel` (and never otherwise — in particular directories, even ones named
like image files, and files with other extensions are never enumerated), and
the result sequence of a finished run processes exactly the traversal, in
order. -/
theorem C5_traversal (fs : Fsys) (src rel : FPath)
    (hnd : (fs.files.map (fun e => e.1)).Nodup) :
    ((iter_images fs src).count rel =
      if (findFile fs (src ++ rel)).isSome ∧ rel ≠ [] ∧
         imageExts.contains (lowerStr (pathSuffix (src ++ rel))) = true
      then 1 else 0) ∧
    (∀ (codec : Codec) (args : Args) (fs' : Fsys) (rs : List FileResult)
      (out : List String),
      mainRun codec args fs = RunOutcome.finished fs' rs out →
      rs.map (fun r => r.src) = (iter_images fs args.src).map (fun q => args.src ++ q)) := by
  constructor
  · exact count_iter_list src rel fs.files hnd
  · intro codec args fs' rs out h
    unfold mainRun at h
    split at h
    · cases h
    split at h
    · cases h
    split at h
    · cases h
    next fs1 hdm =>
    split at h
    · cases h
    next fsrs hpa =>
    injection h with h1 h2 h3
    have hf1 : fs1.files = fs.files := by
      unfold destMkdir at hdm
      split at hdm
      · cases hdm; rfl
      · exact mkdirp_ok_files hdm
    rw [← h2, ← iter_images_congr hf1 args.src]
    exact processAll_srcs codec args (destRootOf args) (iter_images fs1 args.src)
      fs1 fsrs.1 fsrs.2 hpa

/-- Witness for C5 at a concrete input: `a.jpg` sits once in the traversal of
`fsA`. -/
theorem C5_witness :
    (iter_images fsA ["s"]).count ["a.jpg"] =
      if (findFile fsA (["s"] ++ ["a.jpg"])).isSome ∧ (["a.jpg"] : FPath) ≠ [] ∧
         imageExts.contains (lowerStr (pathSuffix (["s"] ++ ["a.jpg"]))) = true
      then 1 else 0 :=
  (C5_traversal fsA ["s"] ["a.jpg"] (by decide)).1

theorem lastSuffix_append_tmp :
    ∀ l : List Char, lastSuffix (l ++ ['.', 't', 'm', 'p']) = some ['.', 't', 'm', 'p'] := by
  intro l
  induction l with
  | nil => rfl
  | cons c rest ih =>
    rw [List.cons_append, lastSuffix, ih]

theorem pySuffix_append_tmp (x : String) (hx : x ≠ "") : pySuffix (x ++ ".tmp") = ".tmp" := by
  have hd : (x ++ ".tmp").data = x.data ++ ['.', 't', 'm', 'p'] := String.data_append x ".tmp"
  rw [pySuffix, hd, lastSuffix_append_tmp]
  have hxd : x.data ≠ [] := by
    intro h0
    exact hx (String.ext h0)
  have hlen : x.data.length ≠ 0 := fun h0 => hxd (List.length_eq_zero.mp h0)
  show (if (['.', 't', 'm', 'p'] : List Char).length < (x.data ++ ['.', 't', 'm', 'p']).length ∧
      2 ≤ (['.', 't', 'm', 'p'] : List Char).length
    then String.mk ['.', 't', 'm', 'p'] else "") = ".tmp"
  have hcond : (['.', 't', 'm', 'p'] : List Char).length <
      (x.data ++ ['.', 't', 'm', 'p']).length ∧
      2 ≤ (['.', 't', 'm', 'p'] : List Char).length := by
    constructor
    · rw [List.length_append]
      simp only [List.length_cons, List.length_nil]
      omega
    · decide
  rw [if_pos hcond]

theorem getLastD_ne_nil_default (l : List String) (hne : l ≠ []) (c d : String) :
    l.getLastD c = l.getLastD d := by
  cases l with
  | nil => exact absurd rfl hne
  | cons x xs => rfl

theorem getLastD_append (rel : FPath) (hne : rel ≠ []) :
    ∀ (a : FPath) (d : String), (a ++ rel).getLastD d = rel.getLastD d := by
  intro a
  induction a with
  | nil => intro d; rfl
  | cons c a' ih =>
    intro d
    rw [List.cons_append, List.getLastD_cons]
    cases ha' : a' ++ rel with
    | nil =>
      exfalso
      rcases List.append_eq_nil.mp ha' with ⟨_, h2⟩
      exact hne h2
    | cons y ys =>
      rw [← ha', ih c, getLastD_ne_nil_default rel hne c d]

theorem pathSuffix_append (a rel : FPath) (hne : rel ≠ []) :
    pathSuffix (a ++ rel) = pathSuffix rel := by
  rw [pathSuffix, pathSuffix, getLastD_append rel hne a ""]

theorem rel_ne_nil_of_ext {rel : FPath}
    (h : imageExts.contains (lowerStr (pathSuffix rel)) = true) : rel ≠ [] := by
  intro h0
  subst h0
  cases h

theorem last_ne_empty_of_ext {rel : FPath}
    (h : imageExts.contains (lowerStr (pathSuffix rel)) = true) : rel.getLastD "" ≠ "" := by
  intro h0
  rw [pathSuffix, h0] at h
  cases h

theorem pathSuffix_tmpPath (dp : FPath) (hx : dp.getLastD "" ≠ "") :
    pathSuffix (tmpPath dp) = ".tmp" := by
  rw [tmpPath, pathSuffix, getLastD_append [dp.getLastD "" ++ ".tmp"] (by simp) dp.dropLast ""]
  exact pySuffix_append_tmp (dp.getLastD "") hx

/-- `tmpPath` of a destination derived from an image-suffixed relative path is
never itself a path with an image extension; in particular it never collides
with a source path of the traversal. -/
theorem tmpPath_not_image {dp p : FPath}
    (hx : dp.getLastD "" ≠ "")
    (hext : imageExts.contains (lowerStr (pathSuffix p)) = true) :
    tmpPath dp ≠ p := by
  intro h0
  rw [← h0, pathSuffix_tmpPath dp hx] at hext
  cases hext

/-- Decidable test: neither path is a prefix of the other (the destination
subtree and the source subtree do not overlap). -/
def disjointPaths (a b : FPath) : Bool :=
  !(List.isPrefixOf a b) && !(List.isPrefixOf b a)

theorem disjoint_append_ne {a b : FPath} (h : disjointPaths a b = true) (x y : FPath) :
    a ++ x ≠ b ++ y := by
  intro heq
  rw [disjointPaths, Bool.and_eq_true, Bool.not_eq_true', Bool.not_eq_true'] at h
  have h1 : a <+: a ++ x := ⟨x, rfl⟩
  have h2 : b <+: a ++ x := by rw [heq]; exact ⟨y, rfl⟩
  have hcomp := List.prefix_or_prefix_of_prefix h1 h2
  rcases hcomp with hc | hc
  · rw [ List.isPrefixOf_iff_prefix.mpr hc] at h
    cases h.1
  · rw [ List.isPrefixOf_iff_prefix.mpr hc] at h
    cases h.2

/-- Two `optimize_image` calls on the same source content (whatever their
destinations) produce results with the same `new_size`: the encoder is a
function of the decoded image and the options only. -/
theorem opt_agree {codec : Codec} {fsD fsN : Fsys} {ip d1 d2 : FPath} {q : Nat}
    {fsD1 fsN1 : Fsys} {rD rN : FileResult}
    (hag : findFile fsD ip = findFile fsN ip)
    (hD : optimize_image codec fsD ip d1 q = Except.ok (fsD1, rD))
    (hN : optimize_image codec fsN ip d2 q = Except.ok (fsN1, rN)) :
    rD.new_size = rN.new_size := by
  obtain ⟨fsD0, hmD, hcD⟩ := optimize_ok_cases hD
  obtain ⟨fsN0, hmN, hcN⟩ := optimize_ok_cases hN
  have hfD : fsD0.files = fsD.files := mkdirp_ok_files hmD
  have hfN : fsN0.files = fsN.files := mkdirp_ok_files hmN
  rcases hcD with ⟨e, hoDe, _, hrD⟩ | ⟨img, sz, hfind, hbrD⟩
  · rcases hcN with ⟨e', hoNe, _, hrN⟩ | ⟨img', sz', hfind', hbrN⟩
    · subst hrD; subst hrN; rfl
    · exfalso
      have hok : openImage fsD0 ip = Except.ok img' := by
        unfold openImage
        rw [findFile_of_files_eq hfD, hag, hfind']
      rw [hok] at hoDe
      cases hoDe
  · rcases hcN with ⟨e', hoNe, _, hrN⟩ | ⟨img', sz', hfind', hbrN⟩
    · exfalso
      have hok : openImage fsN0 ip = Except.ok img := by
        unfold openImage
        rw [findFile_of_files_eq hfN, ← hag, hfind]
      rw [hok] at hoNe
      cases hoNe
    · have heq : FileContent.valid img sz = FileContent.valid img' sz' := by
        have hh := hfind.symm.trans (hag.trans hfind')
        injection hh
      injection heq with h1 h2
      subst h1
      subst h2
      rcases hbrD with ⟨hfmt, _, _, hrD⟩ | ⟨hfmt, prD, heD, _, _, hrD⟩
      · rcases hbrN with ⟨_, _, _, hrN⟩ | ⟨hfmt', _⟩
        · subst hrD; subst hrN; rfl
        · rw [hfmt] at hfmt'
          cases hfmt'
      · rcases hbrN with ⟨hfmt', _, _, hrN⟩ | ⟨_, prN, heN, _, _, hrN⟩
        · rw [hfmt'] at hfmt
          cases hfmt
        · have hpr : prD = prN := by
            have hh := heD.symm.trans heN
            injection hh
          subst hrD
          subst hrN
          rw [hpr]

theorem findFile_unlink_ne (fs : Fsys) (p q : FPath) (h : q ≠ p) :
    findFile (unlinkFile fs p) q = findFile fs q := by
  unfold unlinkFile findFile
  exact lookupF_removeF_ne _ _ _ h

/-- An `optimize_image` call touches no file other than its destination. -/
theorem optimize_preserves_other {codec : Codec} {fs : Fsys} {src dst : FPath} {q : Nat}
    {fs' : Fsys} {r : FileResult}
    (h : optimize_image codec fs src dst q = Except.ok (fs', r)) (p : FPath) (hne : p ≠ dst) :
    findFile fs' p = findFile fs p := by
  obtain ⟨fs1, hm, hc⟩ := optimize_ok_cases h
  have hf1 : fs1.files = fs.files := mkdirp_ok_files hm
  rcases hc with ⟨e, _, hfs, _⟩ | ⟨img, sz, _, ⟨_, hwf, _, _⟩ | ⟨_, pr, _, hwf, _, _⟩⟩
  · rw [hfs]
    exact findFile_of_files_eq hf1 p
  · rw [findFile, hwf, lookupF_setFile_ne _ _ _ _ hne]
    rfl
  · rw [findFile, hwf, lookupF_setFile_ne _ _ _ _ hne]
    rfl

theorem processOne_dry_opt {codec : Codec} {args : Args} {destRoot : FPath} {fs : Fsys}
    {rel : FPath} {fs2 : Fsys} {r : FileResult}
    (hdry : args.dryRun = true)
    (h : processOne codec args destRoot fs rel = Except.ok (fs2, r)) :
    ∃ fsr1, optimize_image codec fs (args.src ++ rel)
      (tmpPath (if args.inplace = true then args.src ++ rel else destRoot ++ rel))
      args.quality = Except.ok (fsr1, r) := by
  unfold processOne at h
  dsimp only at h
  rw [if_pos hdry] at h
  split at h
  · cases h
  next fsr hopt =>
    injection h with h1
    have hr : r = fsr.2 := (congrArg Prod.snd h1).symm
    rw [hr]
    exact ⟨fsr.1, hopt⟩

theorem processOne_nondry_opt {codec : Codec} {args : Args} {destRoot : FPath} {fs : Fsys}
    {rel : FPath} {fs2 : Fsys} {r : FileResult}
    (hdry : args.dryRun = false)
    (h : processOne codec args destRoot fs rel = Except.ok (fs2, r)) :
    optimize_image codec fs (args.src ++ rel)
      (if args.inplace = true then args.src ++ rel else destRoot ++ rel)
      args.quality = Except.ok (fs2, r) := by
  unfold processOne at h
  dsimp only at h
  rw [hdry] at h
  rw [if_neg (by simp : ¬ (false = true))] at h
  exact h

/-- A dry-run iteration leaves every path other than its temporary file
untouched. -/
theorem processOne_dry_preserves {codec : Codec} {args : Args} {destRoot : FPath} {fs : Fsys}
    {rel : FPath} {fs2 : Fsys} {r : FileResult}
    (hdry : args.dryRun = true)
    (h : processOne codec args destRoot fs rel = Except.ok (fs2, r)) (p : FPath)
    (hne : p ≠ tmpPath (if args.inplace = true then args.src ++ rel else destRoot ++ rel)) :
    findFile fs2 p = findFile fs p := by
  unfold processOne at h
  dsimp only at h
  rw [if_pos hdry] at h
  split at h
  · cases h
  next fsr hopt =>
    injection h with h1
    have hfs2 := (congrArg Prod.fst h1).symm
    dsimp only at hfs2
    have hpres := optimize_preserves_other hopt p hne
    rw [hfs2]
    by_cases hex : existsPath fsr.1
        (tmpPath (if args.inplace = true then args.src ++ rel else destRoot ++ rel)) = true
    · rw [if_pos hex, findFile_unlink_ne _ _ _ hne]
      exact hpres
    · rw [if_neg hex]
      exact hpres

/-- A non-dry-run iteration leaves every path other than its destination
untouched. -/
theorem processOne_nondry_preserves {codec : Codec} {args : Args} {destRoot : FPath}
    {fs : Fsys} {rel : FPath} {fs2 : Fsys} {r : FileResult}
    (hdry : args.dryRun = false)
    (h : processOne codec args destRoot fs rel = Except.ok (fs2, r)) (p : FPath)
    (hne : p ≠ (if args.inplace = true then args.src ++ rel else destRoot ++ rel)) :
    findFile fs2 p = findFile fs p :=
  optimize_preserves_other (processOne_nondry_opt hdry h) p hne

/-- Core dry-run fidelity: over the same relative paths, with agreeing source
contents, distinct image-suffixed paths, and a destination root that is either
in-place or disjoint from the source subtree, the dry pass and the real pass
produce pointwise equal `new_size` values. -/
theorem processAll_dry_vs_nondry (codec : Codec) (args : Args) (destRoot : FPath)
    (hdry : args.dryRun = true)
    (hsafe : args.inplace = true ∨ disjointPaths destRoot args.src = true) :
    ∀ (rels : List FPath) (fsD fsN : Fsys),
    (∀ rel ∈ rels, findFile fsD (args.src ++ rel) = findFile fsN (args.src ++ rel)) →
    rels.Nodup →
    (∀ rel ∈ rels, imageExts.contains (lowerStr (pathSuffix rel)) = true) →
    ∀ (fsD' : Fsys) (rsD : List FileResult) (fsN' : Fsys) (rsN : List FileResult),
    processAll codec args destRoot fsD rels = Except.ok (fsD', rsD) →
    processAll codec { args with dryRun := false } destRoot fsN rels =
      Except.ok (fsN', rsN) →
    rsD.map (fun r => r.new_size) = rsN.map (fun r => r.new_size) := by
  intro rels
  induction rels with
  | nil =>
    intro fsD fsN _ _ _ fsD' rsD fsN' rsN hD hN
    injection hD with hD1
    injection hN with hN1
    have h1 : rsD = [] := (congrArg Prod.snd hD1).symm
    have h2 : rsN = [] := (congrArg Prod.snd hN1).symm
    rw [h1, h2]
  | cons rel rest ih =>
    intro fsD fsN hag hnd hsuf fsD' rsD fsN' rsN hD hN
    rw [processAll] at hD hN
    split at hD
    · cases hD
    next fsrD h1D =>
    split at hD
    · cases hD
    next fsrsD h2D =>
    split at hN
    · cases hN
    next fsrN h1N =>
    split at hN
    · cases hN
    next fsrsN h2N =>
    injection hD with hD1
    injection hN with hN1
    have hrsD : rsD = fsrD.2 :: fsrsD.2 := (congrArg Prod.snd hD1).symm
    have hrsN : rsN = fsrN.2 :: fsrsN.2 := (congrArg Prod.snd hN1).symm
    rw [List.nodup_cons] at hnd
    obtain ⟨hrelmem, hnd'⟩ := hnd
    have hsufrel := hsuf rel (List.mem_cons_self rel rest)
    have hrelne : rel ≠ [] := rel_ne_nil_of_ext hsufrel
    have hlastne : rel.getLastD "" ≠ "" := last_ne_empty_of_ext hsufrel
    -- the head results agree in new_size
    obtain ⟨fsr1, hoptD⟩ := processOne_dry_opt hdry h1D
    have hoptN := processOne_nondry_opt rfl h1N
    have hagrel := hag rel (List.mem_cons_self rel rest)
    have hhead : fsrD.2.new_size = fsrN.2.new_size := by
      refine opt_agree ?_ hoptD hoptN
      exact hagrel
    -- the states still agree on the remaining source paths
    have hdpne : ∀ rel' ∈ rest, args.src ++ rel' ≠
        (if args.inplace = true then args.src ++ rel else destRoot ++ rel) := by
      intro rel' hmem heq
      by_cases hip : args.inplace = true
      · rw [if_pos hip] at heq
        have : rel' = rel := List.append_cancel_left heq
        rw [this] at hmem
        exact hrelmem hmem
      · rw [if_neg hip] at heq
        rcases hsafe with hsafe | hsafe
        · exact hip hsafe
        · exact disjoint_append_ne hsafe rel rel' heq.symm
    have htmpne : ∀ rel' ∈ rest, args.src ++ rel' ≠
        tmpPath (if args.inplace = true then args.src ++ rel else destRoot ++ rel) := by
      intro rel' hmem heq
      have hsuf' := hsuf rel' (List.mem_cons_of_mem rel hmem)
      have hrelne' : rel' ≠ [] := rel_ne_nil_of_ext hsuf'
      have hext : imageExts.contains (lowerStr (pathSuffix (args.src ++ rel'))) = true := by
        rw [pathSuffix_append args.src rel' hrelne']
        exact hsuf'
      have hlast : (if args.inplace = true then args.src ++ rel
          else destRoot ++ rel).getLastD "" ≠ "" := by
        by_cases hip : args.inplace = true
        · rw [if_pos hip, getLastD_append rel hrelne]
          exact hlastne
        · rw [if_neg hip, getLastD_append rel hrelne]
          exact hlastne
      exact tmpPath_not_image hlast hext heq.symm
    have hagrest : ∀ rel' ∈ rest,
        findFile fsrD.1 (args.src ++ rel') = findFile fsrN.1 (args.src ++ rel') := by
      intro rel' hmem
      rw [processOne_dry_preserves hdry h1D (args.src ++ rel') (htmpne rel' hmem)]
      rw [processOne_nondry_preserves rfl h1N (args.src ++ rel') (hdpne rel' hmem)]
      exact hag rel' (List.mem_cons_of_mem rel hmem)
    have hrest := ih fsrD.1 fsrN.1 hagrest hnd'
      (fun r hr => hsuf r (List.mem_cons_of_mem rel hr))
      fsrsD.1 fsrsD.2 fsrsN.1 fsrsN.2 h2D h2N
    rw [hrsD, hrsN, List.map_cons, List.map_cons, hhead, hrest]

/-- A dry-run iteration creates no file: anything present afterwards was
already there (its own temporary file is deleted before returning). -/
theorem processOne_dry_no_new {codec : Codec} {args : Args} {destRoot : FPath} {fs : Fsys}
    {rel : FPath} {fs2 : Fsys} {r : FileResult}
    (hdry : args.dryRun = true)
    (h : processOne codec args destRoot fs rel = Except.ok (fs2, r)) :
    ∀ p c, findFile fs2 p = some c → findFile fs p = some c := by
  have h0 := h
  unfold processOne at h
  dsimp only at h
  rw [if_pos hdry] at h
  split at h
  · cases h
  next fsr hopt =>
  injection h with h1
  have hfs2 := (congrArg Prod.fst h1).symm
  dsimp only at hfs2
  intro p c hp
  by_cases hpt : p = tmpPath (if args.inplace = true then args.src ++ rel else destRoot ++ rel)
  · exfalso
    rw [hpt, hfs2] at hp
    by_cases hex : existsPath fsr.1
        (tmpPath (if args.inplace = true then args.src ++ rel else destRoot ++ rel)) = true
    · rw [if_pos hex] at hp
      have hp2 : lookupF (removeF fsr.1.files
          (tmpPath (if args.inplace = true then args.src ++ rel else destRoot ++ rel)))
          (tmpPath (if args.inplace = true then args.src ++ rel else destRoot ++ rel)) =
          some c := hp
      rw [lookupF_removeF_self] at hp2
      cases hp2
    · rw [if_neg hex] at hp
      have hnone : findFile fsr.1
          (tmpPath (if args.inplace = true then args.src ++ rel else destRoot ++ rel)) =
          none := by
        by_cases hc : findFile fsr.1
            (tmpPath (if args.inplace = true then args.src ++ rel else destRoot ++ rel)) = none
        · exact hc
        · exact absurd (by
            rw [existsPath, Bool.or_eq_true]
            exact Or.inl (Option.ne_none_iff_isSome.mp hc)) hex
      rw [hnone] at hp
      cases hp
  · rw [processOne_dry_preserves hdry h0 p hpt] at hp
    exact hp

/-- A whole dry-run traversal creates no file. -/
theorem processAll_dry_no_new (codec : Codec) (args : Args) (destRoot : FPath)
    (hdry : args.dryRun = true) :
    ∀ (rels : List FPath) (fsX fsY : Fsys) (rs : List FileResult),
    processAll codec args destRoot fsX rels = Except.ok (fsY, rs) →
    ∀ p c, findFile fsY p = some c → findFile fsX p = some c := by
  intro rels
  induction rels with
  | nil =>
    intro fsX fsY rs h p c hp
    injection h with h1
    have : fsY = fsX := (congrArg Prod.fst h1).symm
    rw [← this]
    exact hp
  | cons rel rest ih =>
    intro fsX fsY rs h p c hp
    rw [processAll] at h
    split at h
    · cases h
    next fsr h1 =>
    split at h
    · cases h
    next fsrs h2 =>
    injection h with h3
    have hfsY : fsY = fsrs.1 := (congrArg Prod.fst h3).symm
    rw [hfsY] at hp
    have hstep := ih fsr.1 fsrs.1 fsrs.2 h2 p c hp
    exact processOne_dry_no_new hdry h1 p c hstep

theorem iter_mem_suffix {fs : Fsys} {src rel : FPath} (h : rel ∈ iter_images fs src) :
    imageExts.contains (lowerStr (pathSuffix rel)) = true := by
  unfold iter_images at h
  rw [List.mem_filterMap] at h
  obtain ⟨e, hmem, hfe⟩ := h
  unfold iterF at hfe
  split at hfe
  next hcond =>
    injection hfe with hfe
    have he1 : e.1 = src ++ e.1.drop src.length := eq_append_of_isPrefixOf hcond.1
    have hlen : e.1.length = src.length + (e.1.drop src.length).length := by
      conv =>
        left
        rw [he1]
      rw [List.length_append]
    have hrelne : e.1.drop src.length ≠ [] := by
      intro h0
      have hlt := hcond.2.1
      rw [h0] at hlen
      simp only [List.length_nil] at hlen
      omega
    have hps : pathSuffix e.1 = pathSuffix (e.1.drop src.length) := by
      conv =>
        left
        rw [he1]
      exact pathSuffix_append src (e.1.drop src.length) hrelne
    rw [hps] at hcond
    rw [← hfe]
    exact hcond.2.2
  · cases hfe

theorem iterF_some_key {src : FPath} {e : FPath × FileContent} {rel : FPath}
    (h : iterF src e = some rel) : e.1 = src ++ rel := by
  unfold iterF at h
  split at h
  next hcond =>
    injection h with h1
    rw [← h1]
    exact eq_append_of_isPrefixOf hcond.1
  · cases h

theorem iter_nodup_list (src : FPath) :
    ∀ l : List (FPath × FileContent), (l.map (fun e => e.1)).Nodup →
    (l.filterMap (iterF src)).Nodup := by
  intro l
  induction l with
  | nil => intro _; exact List.nodup_nil
  | cons e rest ih =>
    intro hnd
    rw [List.map_cons, List.nodup_cons] at hnd
    obtain ⟨hx, hnd'⟩ := hnd
    cases hfe : iterF src e with
    | none =>
      rw [List.filterMap_cons_none hfe]
      exact ih hnd'
    | some rel =>
      rw [List.filterMap_cons_some hfe]
      rw [List.nodup_cons]
      refine ⟨?_, ih hnd'⟩
      intro hmem
      rw [List.mem_filterMap] at hmem
      obtain ⟨e', hmem', hfe'⟩ := hmem
      apply hx
      rw [List.mem_map]
      refine ⟨e', hmem', ?_⟩
      rw [iterF_some_key hfe', ← iterF_some_key hfe]

theorem iter_nodup (fs : Fsys) (src : FPath)
    (hnd : (fs.files.map (fun e => e.1)).Nodup) : (iter_images fs src).Nodup :=
  iter_nodup_list src fs.files hnd

theorem destMkdir_ok_files {args : Args} {fs fs1 : Fsys}
    (h : destMkdir args fs = Except.ok fs1) : fs1.files = fs.files := by
  unfold destMkdir at h
  split at h
  · cases h
    rfl
  · exact mkdirp_ok_files h

/-- Inversion of a finished run: the destination-root step succeeded and the
traversal completed with the reported results. -/
theorem mainRun_finished_inv {codec : Codec} {args : Args} {fs fs' : Fsys}
    {rs : List FileResult} {out : List String}
    (h : mainRun codec args fs = RunOutcome.finished fs' rs out) :
    ∃ fs1 fsY, destMkdir args fs = Except.ok fs1 ∧
      processAll codec args (destRootOf args) fs1 (iter_images fs1 args.src) =
        Except.ok (fsY, rs) ∧ fsY = fs' ∧ out = reportOf rs := by
  unfold mainRun at h
  split at h
  · cases h
  split at h
  · cases h
  split at h
  · cases h
  next fs1 hdm =>
  split at h
  · cases h
  next fsrs hpa =>
  injection h with h1 h2 h3
  refine ⟨fs1, fsrs.1, hdm, ?_, h1, ?_⟩
  · rw [← h2]
    exact hpa
  · rw [← h3, h2]

/-- C2 amended: a dry-run pass creates no residual files anywhere (any file
present after the run was present before, with identical content) — though it
may create destination directories — and, when the run is in-place or the
destination root is disjoint from the source subtree, every FileResult of a
finished dry run reports exactly the `new_size` the finished non-dry-run pass
reports for the same file. -/
theorem C2_dry_run :
    (∀ (codec : Codec) (args : Args) (fs fs' : Fsys) (rs : List FileResult)
      (out : List String),
      args.dryRun = true →
      mainRun codec args fs = RunOutcome.finished fs' rs out →
      ∀ p c, findFile fs' p = some c → findFile fs p = some c) ∧
    (∀ (codec : Codec) (args : Args) (fs fsD fsN : Fsys) (rsD rsN : List FileResult)
      (outD outN : List String),
      args.dryRun = true →
      (fs.files.map (fun e => e.1)).Nodup →
      (args.inplace = true ∨ disjointPaths (destRootOf args) args.src = true) →
      mainRun codec args fs = RunOutcome.finished fsD rsD outD →
      mainRun codec { args with dryRun := false } fs = RunOutcome.finished fsN rsN outN →
      rsD.map (fun r => r.new_size) = rsN.map (fun r => r.new_size)) := by
  constructor
  · intro codec args fs fs' rs out hdry h p c hp
    obtain ⟨fs1, fsY, hdm, hpa, hY, _⟩ := mainRun_finished_inv h
    rw [← hY] at hp
    have hstep := processAll_dry_no_new codec args (destRootOf args) hdry
      (iter_images fs1 args.src) fs1 fsY rs hpa p c hp
    rw [← findFile_of_files_eq (destMkdir_ok_files hdm) p]
    exact hstep
  · intro codec args fs fsD fsN rsD rsN outD outN hdry hnd hsafe hD hN
    obtain ⟨fs1D, fsYD, hdmD, hpaD, _, _⟩ := mainRun_finished_inv hD
    obtain ⟨fs1N, fsYN, hdmN, hpaN, _, _⟩ := mainRun_finished_inv hN
    have hdmN' : destMkdir args fs = Except.ok fs1N := hdmN
    have hfs1 : fs1N = fs1D := by
      have hh := hdmD.symm.trans hdmN'
      injection hh with hh2
      exact hh2.symm
    subst hfs1
    have hf1 : fs1N.files = fs.files := destMkdir_ok_files hdmD
    have hnd1 : (fs1N.files.map (fun e => e.1)).Nodup := by
      rw [hf1]
      exact hnd
    have hpaN' : processAll codec { args with dryRun := false } (destRootOf args) fs1N
        (iter_images fs1N args.src) = Except.ok (fsYN, rsN) := hpaN
    exact processAll_dry_vs_nondry codec args (destRootOf args) hdry hsafe
      (iter_images fs1N args.src) fs1N fs1N (fun _ _ => rfl)
      (iter_nodup fs1N args.src hnd1)
      (fun rel hr => iter_mem_suffix hr)
      fsYD rsD fsYN rsN hpaD hpaN'

/-- Concrete images for the C2 scenario: three PNGs distinguished by width. -/
def imgPA : Img := { fmt := "PNG", mode := "RGB", w := 2, h := 1, px := [], exif := none }

def imgPB : Img := { fmt := "PNG", mode := "RGB", w := 3, h := 1, px := [], exif := none }

def imgPO : Img := { fmt := "PNG", mode := "RGB", w := 50, h := 1, px := [], exif := none }

/-- Codec whose output size depends on the input image's width, so that
overwritten inputs are observable. -/
def codW : Codec := { encode := fun img _ _ => Except.ok (imgPO, img.w * 7) }

/-- Source tree whose destination root (`s/out`) lies inside the source
subtree, so the non-dry pass overwrites a file the traversal later reads. -/
def fsW : Fsys :=
  { files := [ (["s", "sub", "a.jpg"], FileContent.valid imgPA 100),
               (["s", "out", "sub", "a.jpg"], FileContent.valid imgPB 200) ],
    dirs := [["s"], ["s", "sub"], ["s", "out"], ["s", "out", "sub"]] }

def argsWD : Args :=
  { src := ["s"], dest := some ["s", "out"], inplace := false, quality := 85, dryRun := true }

def argsWN : Args :=
  { src := ["s"], dest := some ["s", "out"], inplace := false, quality := 85, dryRun := false }

/-- Source tree with one image in a subdirectory, for the residual-directory
part of the C2 counterexample. -/
def fsC2 : Fsys :=
  { files := [(["s", "sub", "c.png"], FileContent.valid imgPA 100)],
    dirs := [["s"], ["s", "sub"]] }

def argsC2 : Args :=
  { src := ["s"], dest := some ["o"], inplace := false, quality := 85, dryRun := true }

/-- C2 counterexample: (1) the dry run creates the destination directory
`o/sub`, which did not exist before — the destination tree is not left
unchanged; and (2) when the destination root overlaps the source tree, the
dry run and the non-dry run report different `new_size` values for the same
file (21 vs 350), because the non-dry pass overwrites a source file before
the traversal reads it. -/
theorem C2_counterexample :
    ((["o", "sub"] ∈ (outFsys (mainRun codec0 argsC2 fsC2)).dirs) ∧
      ["o", "sub"] ∉ fsC2.dirs) ∧
    newSizeAt 1 (mainRun codW argsWD fsW) = 21 ∧
    newSizeAt 1 (mainRun codW argsWN fsW) = 350 ∧
    newSizeAt 1 (mainRun codW argsWD fsW) ≠ newSizeAt 1 (mainRun codW argsWN fsW) := by
  decide

/-- Concrete arguments for the C2 witness: disjoint destination root. -/
def argsC2w : Args :=
  { src := ["s"], dest := some ["o"], inplace := false, quality := 85, dryRun := true }

/-- Witness for C2 at a concrete input: over `fsA` with the disjoint
destination `o`, the dry run reports the same `new_size` values as the real
run. -/
theorem C2_witness :
    (outResults (mainRun codec0 argsC2w fsA)).map (fun r => r.new_size) =
    (outResults (mainRun codec0 { argsC2w with dryRun := false } fsA)).map
      (fun r => r.new_size) :=
  C2_dry_run.2 codec0 argsC2w fsA
    (outFsys (mainRun codec0 argsC2w fsA))
    (outFsys (mainRun codec0 { argsC2w with dryRun := false } fsA))
    (outResults (mainRun codec0 argsC2w fsA))
    (outResults (mainRun codec0 { argsC2w with dryRun := false } fsA))
    (outLines (mainRun codec0 argsC2w fsA))
    (outLines (mainRun codec0 { argsC2w with dryRun := false } fsA))
    rfl (by decide) (Or.inr (by decide)) (by rfl) (by rfl)
